import Mathlib

/-!
Verification of the modify.style website-rendering proxy
(`backend/api/views.py`, `backend/api/services/proxy_service.py`,
`backend/api/urls.py`).

URLs, attribute values and HTML text are modelled as lists of bytes
(`List Nat`, each element `< 256`); ASCII literals are written with the
`bytes` helper.  Pure Python string helpers (`str.startswith`,
`str.split`, `str.strip`, `str.rsplit`, `urllib.parse.quote` /
`unquote_plus`, `urllib.parse.urljoin`) are given executable Lean
counterparts, so every definition can be evaluated on concrete inputs.
-/

namespace ModifyStyle

abbrev Bytes := List Nat

/-- Byte view of an ASCII Lean string literal (code points; for the ASCII
literals used here this equals the UTF-8 bytes Python operates on). -/
def bytes (s : String) : Bytes := s.toList.map Char.toNat

/-- Python `s.startswith(p)`. -/
def startsWith (p s : Bytes) : Bool := p.isPrefixOf s

/-- Python `s.startswith((p1, ..., pn))`. -/
def startsWithAny (ps : List Bytes) (s : Bytes) : Bool := ps.any (fun p => startsWith p s)

/-- ASCII lowercase of one byte, as Python `str.lower` acts on ASCII. -/
def lowerByte (b : Nat) : Nat := if 65 ≤ b ∧ b ≤ 90 then b + 32 else b

/-- Python `s.lower()` on ASCII bytes. -/
def lower (s : Bytes) : Bytes := s.map lowerByte

/-- Python substring test `needle in hay`. -/
def containsSub (needle : Bytes) : Bytes → Bool
  | [] => needle.isEmpty
  | b :: rest => needle.isPrefixOf (b :: rest) || containsSub needle rest

/-- Bytes Python's `str.strip()` removes (ASCII whitespace). -/
def isWs (b : Nat) : Bool := b = 32 || b = 9 || b = 10 || b = 13 || b = 11 || b = 12

/-- Python `s.strip()`. -/
def pyStrip (s : Bytes) : Bytes :=
  ((s.dropWhile isWs).reverse.dropWhile isWs).reverse

/-- Python `s.strip("'\"")`: trims quote bytes (39, 34) from both ends. -/
def stripQuotes (s : Bytes) : Bytes :=
  let isQ : Nat → Bool := fun b => b = 39 || b = 34
  ((s.dropWhile isQ).reverse.dropWhile isQ).reverse

/-- Python `s.split(sep)` for a one-byte separator. -/
def pySplit (sep : Nat) (s : Bytes) : List Bytes :=
  s.foldr
    (fun b acc =>
      match acc with
      | cur :: rest => if b = sep then [] :: cur :: rest else (b :: cur) :: rest
      | [] => [[b]])
    [[]]

/-- Python `s.rsplit(sep, 1)` when `sep` occurs in `s`: splits at the last
occurrence. Returns `none` when `sep` does not occur. -/
def rsplitOnce (sep : Nat) (s : Bytes) : Option (Bytes × Bytes) :=
  if ((s.reverse.takeWhile (fun b => b ≠ sep)).length = s.reverse.length) then none
  else some ((s.reverse.drop ((s.reverse.takeWhile (fun b => b ≠ sep)).length + 1)).reverse,
    (s.reverse.takeWhile (fun b => b ≠ sep)).reverse)

/-- Python `sep.join(parts)`. -/
def joinSep (sep : Bytes) : List Bytes → Bytes
  | [] => []
  | [p] => p
  | p :: rest => p ++ sep ++ joinSep sep rest

/-! ### Percent-encoding (`urllib.parse.quote(url, safe='')` and the
query-string decoding Django applies to the `url` parameter). -/

/-- Characters `urllib.parse.quote` never escapes
(letters, digits, `_`, `.`, `-`, `~`). -/
def alwaysSafe (b : Nat) : Bool :=
  (65 ≤ b && b ≤ 90) || (97 ≤ b && b ≤ 122) || (48 ≤ b && b ≤ 57) ||
  b = 95 || b = 46 || b = 45 || b = 126

/-- Uppercase hex digit byte for a nibble, as `quote` emits. -/
def hexUpper (n : Nat) : Nat := if n < 10 then 48 + n else 55 + n

/-- `urllib.parse.quote(url, safe='')` on bytes. -/
def quoteBytes (s : Bytes) : Bytes :=
  s.flatMap (fun b =>
    if alwaysSafe b then [b] else [37, hexUpper (b / 16), hexUpper (b % 16)])

/-- Hex digit value of one byte (accepting both cases), as `unquote` does. -/
def unhex (b : Nat) : Option Nat :=
  if 48 ≤ b ∧ b ≤ 57 then some (b - 48)
  else if 65 ≤ b ∧ b ≤ 70 then some (b - 55)
  else if 97 ≤ b ∧ b ≤ 102 then some (b - 87)
  else none

/-- Percent-decoding loop of `urllib.parse.unquote`: `%XX` becomes the byte
`XX`, malformed escapes are kept verbatim.  The fuel argument (instantiated
with the input length, which bounds the number of steps) makes the recursion
structural. -/
def unquoteGo : Nat → Bytes → Bytes
  | 0, s => s
  | _ + 1, [] => []
  | fuel + 1, b :: rest =>
    if b = 37 then
      match rest with
      | h :: l :: rest2 =>
        match unhex h, unhex l with
        | some x, some y => (16 * x + y) :: unquoteGo fuel rest2
        | _, _ => 37 :: unquoteGo fuel rest
      | _ => 37 :: unquoteGo fuel rest
    else b :: unquoteGo fuel rest

/-- `urllib.parse.unquote` on bytes. -/
def unquoteBytes (s : Bytes) : Bytes := unquoteGo s.length s

/-- `urllib.parse.unquote_plus`, the decoding Django's query-string parser
applies to the value of the `url` parameter: first `+` becomes space, then
percent-escapes are decoded. -/
def unquotePlus (s : Bytes) : Bytes :=
  unquoteBytes (s.map fun b => if b = 43 then 32 else b)

theorem unhex_hexUpper {n : Nat} (h : n < 16) : unhex (hexUpper n) = some n := by
  unfold hexUpper unhex
  by_cases h10 : n < 10
  · rw [if_pos h10, if_pos (by omega)]
    congr 1; omega
  · rw [if_neg h10, if_neg (by omega), if_pos (by omega)]
    congr 1; omega

theorem alwaysSafe_ne_43 {b : Nat} (h : alwaysSafe b = true) : b ≠ 43 := by
  intro hb; subst hb; simp [alwaysSafe] at h

theorem alwaysSafe_ne_37 {b : Nat} (h : alwaysSafe b = true) : b ≠ 37 := by
  intro hb; subst hb; simp [alwaysSafe] at h

theorem quoteBytes_ne_43 : ∀ (s : Bytes), ∀ b ∈ quoteBytes s, b ≠ 43 := by
  intro s
  induction s with
  | nil => intro b hb; simp [quoteBytes] at hb
  | cons c rest ih =>
    intro b hb
    simp only [quoteBytes, List.flatMap_cons, List.mem_append] at hb
    rcases hb with hb | hb
    · by_cases hsafe : alwaysSafe c = true
      · rw [if_pos hsafe] at hb
        simp only [List.mem_singleton] at hb
        subst hb; exact alwaysSafe_ne_43 hsafe
      · rw [if_neg hsafe] at hb
        have : hexUpper (c / 16) ≠ 43 ∧ hexUpper (c % 16) ≠ 43 := by
          constructor <;> (unfold hexUpper; split <;> omega)
        simp only [List.mem_cons, List.not_mem_nil, or_false] at hb
        rcases hb with rfl | rfl | rfl
        · decide
        · exact this.1
        · exact this.2
    · exact ih b hb

theorem unquoteGo_quoteBytes : ∀ (s : Bytes) (fuel : Nat),
    (∀ b ∈ s, b < 256) → (quoteBytes s).length ≤ fuel →
    unquoteGo fuel (quoteBytes s) = s := by
  intro s
  induction s with
  | nil =>
    intro fuel _ _
    show unquoteGo fuel [] = []
    cases fuel <;> rfl
  | cons b rest ih =>
    intro fuel hlt hfuel
    have hb : b < 256 := hlt b (by simp)
    have hrest : ∀ x ∈ rest, x < 256 := fun x hx => hlt x (by simp [hx])
    by_cases hsafe : alwaysSafe b = true
    · have hq : quoteBytes (b :: rest) = b :: quoteBytes rest := by
        simp [quoteBytes, hsafe]
      rw [hq]
      rw [hq] at hfuel
      simp only [List.length_cons] at hfuel
      obtain ⟨f, rfl⟩ : ∃ f, fuel = f + 1 := ⟨fuel - 1, by omega⟩
      show unquoteGo (f + 1) (b :: quoteBytes rest) = b :: rest
      unfold unquoteGo
      rw [if_neg (alwaysSafe_ne_37 hsafe)]
      exact congrArg (b :: ·) (ih f hrest (by omega))
    · have hq : quoteBytes (b :: rest) =
          37 :: hexUpper (b / 16) :: hexUpper (b % 16) :: quoteBytes rest := by
        simp [quoteBytes, hsafe]
      rw [hq]
      rw [hq] at hfuel
      simp only [List.length_cons] at hfuel
      obtain ⟨f, rfl⟩ : ∃ f, fuel = f + 1 := ⟨fuel - 1, by omega⟩
      show unquoteGo (f + 1) (37 :: hexUpper (b / 16) :: hexUpper (b % 16) :: quoteBytes rest)
        = b :: rest
      unfold unquoteGo
      rw [if_pos rfl]
      have hdiv : b / 16 < 16 := by omega
      have hmod : b % 16 < 16 := by omega
      show (match unhex (hexUpper (b / 16)), unhex (hexUpper (b % 16)) with
        | some x, some y => (16 * x + y) :: unquoteGo f (quoteBytes rest)
        | _, _ => 37 :: unquoteGo f (hexUpper (b / 16) :: hexUpper (b % 16) :: quoteBytes rest))
        = b :: rest
      rw [unhex_hexUpper hdiv, unhex_hexUpper hmod]
      show (16 * (b / 16) + b % 16) :: unquoteGo f (quoteBytes rest) = b :: rest
      rw [ih f hrest (by omega)]
      congr 1
      omega

/-- Round trip of the percent-coder: decoding an encoding recovers the
original bytes exactly. -/
theorem unquotePlus_quoteBytes (s : Bytes) (h : ∀ b ∈ s, b < 256) :
    unquotePlus (quoteBytes s) = s := by
  unfold unquotePlus unquoteBytes
  have hmap : (quoteBytes s).map (fun b => if b = 43 then 32 else b) = quoteBytes s := by
    apply List.map_congr_left ?_ |>.trans (List.map_id _)
    intro b hb
    simp [quoteBytes_ne_43 s b hb]
  rw [hmap]
  exact unquoteGo_quoteBytes s (quoteBytes s).length h le_rfl

/-! ### Proxy-URL encoders (`proxy_url` in `views.py` and in
`proxy_service.py`) and the relay-side decoders. -/

/-- The placeholder origin token `{{PROXY_BASE}}`. -/
def proxyBaseTok : Bytes := bytes "\x7b\x7bPROXY_BASE\x7d\x7d"

/-- Emitted head of a query-encoded proxy URL
(`{{PROXY_BASE}}/api/proxy-resource/?url=`), from `views.proxy_url`. -/
def qRelayMark : Bytes := proxyBaseTok ++ bytes "/api/proxy-resource/?url="

/-- Emitted head of a path-encoded proxy URL
(`{{PROXY_BASE}}/api/proxy-path/`), from `ProxyService._proxy_resources.proxy_url`. -/
def pRelayMark : Bytes := proxyBaseTok ++ bytes "/api/proxy-path/"

/-- Passthrough test of `proxy_url` in `views.py` (query-based encoder):
`not url or url.startswith(('data:', 'blob:', '#', 'javascript:', 'mailto:',
'tel:', '/api/proxy-resource/', '{{PROXY_BASE}}'))`. -/
def proxyPassQuery (u : Bytes) : Bool :=
  u.isEmpty || startsWithAny
    [bytes "data:", bytes "blob:", bytes "#", bytes "javascript:", bytes "mailto:",
     bytes "tel:", bytes "/api/proxy-resource/", proxyBaseTok] u

/-- Passthrough test of `proxy_url` in `proxy_service.py` (path-based encoder);
it additionally passes through `/api/proxy-path/`. -/
def proxyPassPath (u : Bytes) : Bool :=
  u.isEmpty || startsWithAny
    [bytes "data:", bytes "blob:", bytes "#", bytes "javascript:", bytes "mailto:",
     bytes "tel:", bytes "/api/proxy-resource/", bytes "/api/proxy-path/", proxyBaseTok] u

/-- `proxy_url` of `views.proxy_website` (query-based): protocol-relative URLs
are completed with the scheme of the final URL, everything else is
percent-encoded as the `url` query parameter of the relay endpoint. -/
def proxy_url_query (scheme u : Bytes) : Bytes :=
  if proxyPassQuery u then u
  else
    let u' := if startsWith (bytes "//") u then scheme ++ [58] ++ u else u
    qRelayMark ++ quoteBytes u'

/-- `proxy_url` of `ProxyService._proxy_resources` (path-based): the absolute
URL is appended verbatim after the relay path. -/
def proxy_url_path (scheme u : Bytes) : Bytes :=
  if proxyPassPath u then u
  else
    let u' := if startsWith (bytes "//") u then scheme ++ [58] ++ u else u
    pRelayMark ++ u'

/-- Decoding of a query-encoded proxy URL: the client substitutes the
placeholder with its origin and requests `/api/proxy-resource/?url=...`;
Django's query-string parser percent-decodes the `url` parameter, which
`views.proxy_resource` then fetches.  Modelled here as stripping the
emitted head and percent-decoding the remainder. -/
def decodeProxyQuery (pu : Bytes) : Option Bytes :=
  if startsWith qRelayMark pu then some (unquotePlus (pu.drop qRelayMark.length)) else none

/-- A URL the spec calls absolute: explicit `http://` or `https://` scheme. -/
def isHttpAbs (u : Bytes) : Bool :=
  startsWith (bytes "http://") u || startsWith (bytes "https://") u

theorem startsWith_iff {p u : Bytes} : startsWith p u = true ↔ ∃ t, u = p ++ t := by
  constructor
  · intro h
    obtain ⟨t, ht⟩ := List.isPrefixOf_iff_prefix.mp h
    exact ⟨t, ht.symm⟩
  · rintro ⟨t, rfl⟩
    exact List.isPrefixOf_iff_prefix.mpr ⟨t, rfl⟩

theorem proxyPassQuery_of_httpAbs {u : Bytes} (h : isHttpAbs u = true) :
    proxyPassQuery u = false := by
  rcases Bool.or_eq_true _ _ |>.mp h with h1 | h1 <;>
    obtain ⟨t, rfl⟩ := startsWith_iff.mp h1 <;>
    simp [proxyPassQuery, startsWithAny, startsWith, bytes, proxyBaseTok, List.isPrefixOf]

theorem proxyPassPath_of_httpAbs {u : Bytes} (h : isHttpAbs u = true) :
    proxyPassPath u = false := by
  rcases Bool.or_eq_true _ _ |>.mp h with h1 | h1 <;>
    obtain ⟨t, rfl⟩ := startsWith_iff.mp h1 <;>
    simp [proxyPassPath, startsWithAny, startsWith, bytes, proxyBaseTok, List.isPrefixOf]

theorem notProtoRel_of_httpAbs {u : Bytes} (h : isHttpAbs u = true) :
    startsWith (bytes "//") u = false := by
  rcases Bool.or_eq_true _ _ |>.mp h with h1 | h1 <;>
    obtain ⟨t, rfl⟩ := startsWith_iff.mp h1 <;>
    simp [startsWith, bytes, List.isPrefixOf]

/-- C1. For every absolute URL outside the passthrough set, decoding the
query-encoded proxy URL produced by `views.proxy_url` recovers the original
URL byte-for-byte (query component included). -/
theorem c1_query_encoding_roundtrip (scheme u : Bytes)
    (habs : isHttpAbs u = true) (hbytes : u.all (fun b => decide (b < 256)) = true) :
    decodeProxyQuery (proxy_url_query scheme u) = some u := by
  unfold proxy_url_query
  rw [proxyPassQuery_of_httpAbs habs, if_neg (by simp)]
  simp only [notProtoRel_of_httpAbs habs, Bool.false_eq_true, if_neg, ite_false]
  unfold decodeProxyQuery
  rw [if_pos (startsWith_iff.mpr ⟨quoteBytes u, rfl⟩), List.drop_left]
  congr 1
  exact unquotePlus_quoteBytes u (by simpa using hbytes)

/-- Witness for C1 at a concrete URL with query and reserved characters. -/
theorem c1_query_encoding_roundtrip_witness :
    isHttpAbs (bytes "https://example.com/a b/c.css?v=1&t=x+y") = true ∧
    (bytes "https://example.com/a b/c.css?v=1&t=x+y").all (fun b => decide (b < 256)) = true ∧
    decodeProxyQuery (proxy_url_query (bytes "https")
        (bytes "https://example.com/a b/c.css?v=1&t=x+y"))
      = some (bytes "https://example.com/a b/c.css?v=1&t=x+y") :=
  ⟨by decide, by decide,
    c1_query_encoding_roundtrip (bytes "https") (bytes "https://example.com/a b/c.css?v=1&t=x+y")
      (by decide) (by decide)⟩

/-! ### Path-based relay decoding (claim C4) -/

/-- Modelled from the spec: scheme restoration step of the missing
`views.proxy_path_view`.  A scheme whose `://` was collapsed to `:/`
(single slash) by upstream path normalization is restored to the
double-slash form before use. -/
def fixCollapsedScheme (path : Bytes) : Bytes :=
  if startsWith (bytes "http:/") path && !startsWith (bytes "http://") path then
    bytes "http://" ++ path.drop 6
  else if startsWith (bytes "https:/") path && !startsWith (bytes "https://") path then
    bytes "https://" ++ path.drop 7
  else path

/-- Modelled from the spec: `urls.py` routes `proxy-path/<path:url>` to
`views.proxy_path_view`, which is absent from the source tree.  Per spec
§4.2 the decoder restores the collapsed scheme and re-appends any trailing
query string of the original client request to the decoded target. -/
def proxy_path_view_decode (path query : Bytes) : Bytes :=
  if query.isEmpty then fixCollapsedScheme path
  else fixCollapsedScheme path ++ [63] ++ query

/-- The upstream path normalization named by the spec: the double slash
after the scheme is collapsed to a single slash. -/
def collapseSchemeSlash (u : Bytes) : Bytes :=
  if startsWith (bytes "http://") u then bytes "http:/" ++ u.drop 7
  else if startsWith (bytes "https://") u then bytes "https:/" ++ u.drop 8
  else u

theorem startsWith_append_self (p t : Bytes) : startsWith p (p ++ t) = true :=
  startsWith_iff.mpr ⟨t, rfl⟩

theorem drop_lit_append {p : Bytes} (t : Bytes) {n : Nat} (h : p.length = n) :
    (p ++ t).drop n = t := h ▸ List.drop_left p t

theorem startsWith_append_cancel {p q t : Bytes} :
    startsWith (p ++ q) (p ++ t) = startsWith q t := by
  by_cases h : startsWith q t = true
  · obtain ⟨s, rfl⟩ := startsWith_iff.mp h
    rw [h, ← List.append_assoc]
    exact startsWith_append_self (p ++ q) s
  · rw [Bool.eq_false_iff.mpr h, Bool.eq_false_iff]
    intro hc
    obtain ⟨s, hs⟩ := startsWith_iff.mp hc
    rw [List.append_assoc] at hs
    exact h (startsWith_iff.mpr ⟨s, List.append_cancel_left hs⟩)

/-- Scheme-restoration helper lemma: a collapsed `http:/` prefix is
restored when the remainder does not itself begin with a slash. -/
theorem fixCollapsedScheme_http {rest : Bytes}
    (hr : startsWith (bytes "/") rest = false) :
    fixCollapsedScheme (bytes "http:/" ++ rest) = bytes "http://" ++ rest := by
  have h2 : startsWith (bytes "http://") (bytes "http:/" ++ rest) = false := by
    rw [show (bytes "http://" : Bytes) = bytes "http:/" ++ bytes "/" by decide,
      startsWith_append_cancel]
    exact hr
  unfold fixCollapsedScheme
  rw [startsWith_append_self, h2]
  simp only [Bool.not_false, Bool.true_and, if_true]
  rw [drop_lit_append rest (by decide)]

/-- Scheme-restoration helper lemma for the `https` case. -/
theorem fixCollapsedScheme_https {rest : Bytes}
    (hr : startsWith (bytes "/") rest = false) :
    fixCollapsedScheme (bytes "https:/" ++ rest) = bytes "https://" ++ rest := by
  have h1 : startsWith (bytes "http:/") (bytes "https:/" ++ rest) = false := by
    simp [startsWith, bytes, List.isPrefixOf]
  have h3 : startsWith (bytes "https://") (bytes "https:/" ++ rest) = false := by
    rw [show (bytes "https://" : Bytes) = bytes "https:/" ++ bytes "/" by decide,
      startsWith_append_cancel]
    exact hr
  unfold fixCollapsedScheme
  rw [h1, h3, startsWith_append_self]
  simp only [Bool.false_and, Bool.false_eq_true, if_false, Bool.not_false, Bool.true_and,
    if_true]
  rw [drop_lit_append rest (by decide)]

/-- C4. Decoding at the path-based relay endpoint restores a scheme whose
`://` was collapsed to `:/` by upstream path normalization, and re-appends
the original request's trailing query string to the decoded target. -/
theorem c4_path_decode_restores_scheme_and_query (scheme rest q : Bytes)
    (hs : (scheme = bytes "http" || scheme = bytes "https") = true)
    (hr : startsWith (bytes "/") rest = false) :
    proxy_path_view_decode (collapseSchemeSlash (scheme ++ bytes "://" ++ rest)) q
      = (scheme ++ bytes "://" ++ rest) ++ (if q.isEmpty then [] else [63] ++ q) := by
  rcases Bool.or_eq_true _ _ |>.mp hs with h | h
  · rw [of_decide_eq_true h,
      show bytes "http" ++ bytes "://" = bytes "http://" by decide]
    unfold collapseSchemeSlash
    rw [if_pos (startsWith_append_self _ _), drop_lit_append rest (by decide)]
    unfold proxy_path_view_decode
    rw [fixCollapsedScheme_http hr]
    cases hq : q.isEmpty <;> simp
  · rw [of_decide_eq_true h,
      show bytes "https" ++ bytes "://" = bytes "https://" by decide]
    unfold collapseSchemeSlash
    have hno : startsWith (bytes "http://") (bytes "https://" ++ rest) = false := by
      simp [startsWith, bytes, List.isPrefixOf]
    rw [hno]
    simp only [Bool.false_eq_true, if_false]
    rw [if_pos (startsWith_append_self _ _), drop_lit_append rest (by decide)]
    unfold proxy_path_view_decode
    rw [fixCollapsedScheme_https hr]
    cases hq : q.isEmpty <;> simp

/-- Witness for C4: `http://example.com/style.css` collapsed to
`http:/example.com/style.css`, with query `v=2`, decodes back with the
double slash restored and the query re-appended. -/
theorem c4_path_decode_restores_scheme_and_query_witness :
    proxy_path_view_decode
        (collapseSchemeSlash (bytes "http" ++ bytes "://" ++ bytes "example.com/style.css"))
        (bytes "v=2")
      = (bytes "http" ++ bytes "://" ++ bytes "example.com/style.css")
        ++ (if (bytes "v=2").isEmpty then [] else [63] ++ bytes "v=2") :=
  c4_path_decode_restores_scheme_and_query (bytes "http") (bytes "example.com/style.css")
    (bytes "v=2") (by decide) (by decide)

/-! ### `urllib.parse` model: `urlsplit`, `urlunsplit`, `urljoin`.
These back the `urljoin(base, url)` call inside `make_absolute`; `none`
models the `ValueError` CPython raises for a netloc with mismatched
IPv6 brackets, which the `try/except` in `make_absolute` swallows. -/

/-- Characters allowed in a scheme (`scheme_chars` of `urllib.parse`). -/
def schemeChar (b : Nat) : Bool :=
  (65 ≤ b && b ≤ 90) || (97 ≤ b && b ≤ 122) || (48 ≤ b && b ≤ 57) ||
  b = 43 || b = 45 || b = 46

def isAlphaByte (b : Nat) : Bool := (65 ≤ b && b ≤ 90) || (97 ≤ b && b ≤ 122)

/-- Scheme detection of `urlsplit`: the prefix before the first `:` when it
is a nonempty valid scheme (first character alphabetic, all characters in
`scheme_chars`); the scheme is lowercased.  `none` when the URL carries no
scheme. -/
def splitScheme (u : Bytes) : Option (Bytes × Bytes) :=
  let pre := u.takeWhile (fun b => b ≠ 58)
  if pre.length = u.length then none
  else if !pre.isEmpty && isAlphaByte (pre.headD 0) && pre.all schemeChar then
    some (lower pre, u.drop (pre.length + 1))
  else none

/-- The five components `urlsplit` produces; an empty component plays the
role of an absent one, exactly as in `urllib` (where `urlunsplit` drops
empty query/fragment). -/
structure SplitUrl where
  scheme : Bytes
  netloc : Bytes
  path : Bytes
  query : Bytes
  fragment : Bytes
deriving DecidableEq, Repr

/-- A byte terminating the netloc (`/`, `?` or `#`). -/
def nlByte (b : Nat) : Bool := !(b = 47 || b = 63 || b = 35)

/-- Fragment/query extraction of `urlsplit` once scheme and netloc have been
taken, with CPython's mismatched-bracket `ValueError` as `none`. -/
def urlsplitAfterNetloc (sch netloc rest2 : Bytes) : Option SplitUrl :=
  if netloc.contains 91 ≠ netloc.contains 93 then none
  else
    let beforeFrag := rest2.takeWhile (fun b => b ≠ 35)
    let path := beforeFrag.takeWhile (fun b => b ≠ 63)
    some ⟨sch, netloc, path, beforeFrag.drop (path.length + 1),
      rest2.drop (beforeFrag.length + 1)⟩

/-- `urlsplit(url, scheme=defScheme)`. -/
def urlsplitD (defScheme u : Bytes) : Option SplitUrl :=
  match splitScheme u with
  | some (s, r) =>
    if startsWith (bytes "//") r then
      urlsplitAfterNetloc s ((r.drop 2).takeWhile nlByte)
        (r.drop (2 + ((r.drop 2).takeWhile nlByte).length))
    else urlsplitAfterNetloc s [] r
  | none =>
    if startsWith (bytes "//") u then
      urlsplitAfterNetloc defScheme ((u.drop 2).takeWhile nlByte)
        (u.drop (2 + ((u.drop 2).takeWhile nlByte).length))
    else urlsplitAfterNetloc defScheme [] u

/-- `urlunsplit`. -/
def urlunsplit (su : SplitUrl) : Bytes :=
  let u1 :=
    if !su.netloc.isEmpty || startsWith (bytes "//") su.path then
      bytes "//" ++ su.netloc ++
        (if !su.path.isEmpty && !startsWith (bytes "/") su.path
         then [47] ++ su.path else su.path)
    else su.path
  let u2 := if !su.scheme.isEmpty then su.scheme ++ [58] ++ u1 else u1
  let u3 := if !su.query.isEmpty then u2 ++ [63] ++ su.query else u2
  if !su.fragment.isEmpty then u3 ++ [35] ++ su.fragment else u3

/-- `urllib.parse.uses_relative`. -/
def usesRelative : List Bytes :=
  [[], bytes "ftp", bytes "http", bytes "gopher", bytes "nntp", bytes "imap",
   bytes "wais", bytes "file", bytes "https", bytes "shttp", bytes "mms",
   bytes "prospero", bytes "rtsp", bytes "rtspu", bytes "sftp", bytes "svn",
   bytes "svn+ssh", bytes "ws", bytes "wss"]

/-- `urllib.parse.uses_netloc`. -/
def usesNetloc : List Bytes :=
  [[], bytes "ftp", bytes "http", bytes "gopher", bytes "nntp", bytes "telnet",
   bytes "imap", bytes "wais", bytes "file", bytes "mms", bytes "https",
   bytes "shttp", bytes "snews", bytes "prospero", bytes "rtsp", bytes "rtspu",
   bytes "rsync", bytes "svn", bytes "svn+ssh", bytes "sftp", bytes "nfs",
   bytes "git", bytes "git+ssh", bytes "ws", bytes "wss"]

/-- `segments[1:-1] = filter(None, segments[1:-1])` of `urljoin`. -/
def filterMiddle (segs : List Bytes) : List Bytes :=
  match segs with
  | [] => []
  | [a] => [a]
  | a :: rest => a :: (rest.dropLast.filter (fun s => !s.isEmpty) ++ rest.drop (rest.length - 1))

/-- Segment-resolution loop of `urljoin` (`..` pops, `.` is skipped). -/
def resolveSegments (segs : List Bytes) : List Bytes :=
  segs.foldl
    (fun acc seg =>
      if seg = bytes ".." then acc.dropLast
      else if seg = bytes "." then acc
      else acc ++ [seg])
    []

/-- `urllib.parse.urljoin(base, url)`, with `none` for the `ValueError`
cases.  Mirrors CPython's algorithm (the `params` component, which only
matters for paths using `;`-parameters, is kept inside the path). -/
def urljoinM (base url : Bytes) : Option Bytes :=
  if base.isEmpty then some url
  else if url.isEmpty then some base
  else
    match urlsplitD [] base with
    | none => none
    | some b =>
      match urlsplitD b.scheme url with
      | none => none
      | some r =>
        if r.scheme ≠ b.scheme ∨ r.scheme ∉ usesRelative then some url
        else if r.scheme ∈ usesNetloc ∧ ¬r.netloc.isEmpty then some (urlunsplit r)
        else
          let netloc := if r.scheme ∈ usesNetloc then b.netloc else r.netloc
          if r.path.isEmpty then
            some (urlunsplit ⟨r.scheme, netloc, b.path,
              (if r.query.isEmpty then b.query else r.query), r.fragment⟩)
          else
            let baseParts0 := pySplit 47 b.path
            let baseParts :=
              if baseParts0.getLast? ≠ some [] then baseParts0.dropLast else baseParts0
            let segments :=
              if startsWith (bytes "/") r.path then pySplit 47 r.path
              else filterMiddle (baseParts ++ pySplit 47 r.path)
            let resolved :=
              if segments.getLast? = some (bytes "..") ∨ segments.getLast? = some (bytes ".")
              then resolveSegments segments ++ [[]]
              else resolveSegments segments
            let path := joinSep [47] resolved
            some (urlunsplit ⟨r.scheme, netloc,
              (if path.isEmpty then [47] else path), r.query, r.fragment⟩)

/-- `make_absolute` as defined identically (up to the base argument) in
`views.proxy_website` and `ProxyService._proxy_resources`: passthrough for
empty URLs and for `http://`, `https://`, `data:`, `blob:`, `//`, `#`
prefixes, otherwise `urljoin(base, url)`, returning `url` unchanged when
the join raises. -/
def make_absolute (base url : Bytes) : Bytes :=
  if url.isEmpty || startsWithAny
      [bytes "http://", bytes "https://", bytes "data:", bytes "blob:",
       bytes "//", bytes "#"] url then url
  else
    match urljoinM base url with
    | some v => v
    | none => url

/-! ### Claim C9: `make_absolute` resolves relative references. -/

/-- A relative reference in the sense of spec §4.1: nonempty, carrying no
scheme, and outside `make_absolute`'s passthrough prefixes. -/
def relativeNoScheme (u : Bytes) : Bool :=
  !u.isEmpty &&
  !startsWithAny
    [bytes "http://", bytes "https://", bytes "data:", bytes "blob:",
     bytes "//", bytes "#"] u &&
  (splitScheme u).isNone

/-- A well-formed absolute http(s) base, as produced from a browser's final
URL: it parses, has scheme `http`/`https` and a nonempty netloc. -/
def validHttpBase (b : Bytes) : Bool :=
  match urlsplitD [] b with
  | some su => (su.scheme = bytes "http" || su.scheme = bytes "https") && !su.netloc.isEmpty
  | none => false

theorem startsWith_append_right {p x : Bytes} (y : Bytes)
    (h : startsWith p x = true) : startsWith p (x ++ y) = true := by
  obtain ⟨t, rfl⟩ := startsWith_iff.mp h
  rw [List.append_assoc]
  exact startsWith_append_self p (t ++ y)

theorem urlunsplit_isHttpAbs (su : SplitUrl)
    (hs : su.scheme = bytes "http" ∨ su.scheme = bytes "https")
    (hn : su.netloc.isEmpty = false) :
    isHttpAbs (urlunsplit su) = true := by
  have hstep : ∀ sch : Bytes, su.scheme = sch → sch.isEmpty = false →
      startsWith (sch ++ [58] ++ bytes "//") (urlunsplit su) = true := by
    intro sch hsch hne
    unfold urlunsplit
    simp only [hn, Bool.not_false, Bool.true_or, if_true, hsch, hne, if_true]
    have hbase : startsWith (sch ++ [58] ++ bytes "//")
        (sch ++ [58] ++ (bytes "//" ++ su.netloc ++
          (if !su.path.isEmpty && !startsWith (bytes "/") su.path
           then [47] ++ su.path else su.path))) = true := by
      apply startsWith_iff.mpr
      exact ⟨su.netloc ++
        (if !su.path.isEmpty && !startsWith (bytes "/") su.path
         then [47] ++ su.path else su.path), by simp [List.append_assoc]⟩
    by_cases hq : su.query.isEmpty <;> by_cases hf : su.fragment.isEmpty <;>
      simp only [hq, hf, Bool.not_false, Bool.not_true, if_true, if_false,
        Bool.false_eq_true] <;>
      first
        | exact hbase
        | exact startsWith_append_right _ hbase
        | exact startsWith_append_right _ (startsWith_append_right _ hbase)
        | exact startsWith_append_right _
            (startsWith_append_right _ (startsWith_append_right _ hbase))
        | exact startsWith_append_right _ (startsWith_append_right _
            (startsWith_append_right _ (startsWith_append_right _ hbase)))
  rcases hs with h | h
  · have := hstep (bytes "http") h (by decide)
    unfold isHttpAbs
    rw [show (bytes "http" : Bytes) ++ [58] ++ bytes "//" = bytes "http://" by decide] at this
    rw [this, Bool.true_or]
  · have := hstep (bytes "https") h (by decide)
    unfold isHttpAbs
    rw [show (bytes "https" : Bytes) ++ [58] ++ bytes "//" = bytes "https://" by decide] at this
    rw [this, Bool.or_true]

theorem make_absolute_of_httpAbs (b v : Bytes) (h : isHttpAbs v = true) :
    make_absolute b v = v := by
  unfold make_absolute
  rcases Bool.or_eq_true _ _ |>.mp h with h1 | h1 <;> simp [startsWithAny, h1]

theorem urlsplitD_relative (ds u : Bytes) (h1 : splitScheme u = none)
    (h2 : startsWith (bytes "//") u = false) :
    urlsplitD ds u = some ⟨ds, [],
      (u.takeWhile (fun b => b ≠ 35)).takeWhile (fun b => b ≠ 63),
      (u.takeWhile (fun b => b ≠ 35)).drop
        (((u.takeWhile (fun b => b ≠ 35)).takeWhile (fun b => b ≠ 63)).length + 1),
      u.drop ((u.takeWhile (fun b => b ≠ 35)).length + 1)⟩ := by
  unfold urlsplitD
  rw [h1]
  simp only [h2, Bool.false_eq_true, if_false]
  unfold urlsplitAfterNetloc
  simp

/-- C9. For a relative reference `u` and a well-formed absolute http(s)
base, `make_absolute` produces an absolute URL which is a fixed point of
further resolution against any base; and whenever the underlying join
fails, `make_absolute` returns `u` unchanged instead of raising. -/
theorem c9_make_absolute_absolute_and_fixed_point (base base2 u : Bytes)
    (hr : relativeNoScheme u = true) :
    (validHttpBase base = true →
      isHttpAbs (make_absolute base u) = true ∧
      make_absolute base2 (make_absolute base u) = make_absolute base u)
    ∧ (urljoinM base u = none → make_absolute base u = u) := by
  simp only [relativeNoScheme, Bool.and_eq_true, Bool.not_eq_true',
    Option.isNone_iff_eq_none] at hr
  obtain ⟨⟨hne, hpass⟩, hnosch⟩ := hr
  have hma : make_absolute base u =
      (match urljoinM base u with | some v => v | none => u) := by
    unfold make_absolute
    rw [hne, hpass]
    rfl
  have hss : startsWith (bytes "//") u = false := by
    simp only [startsWithAny, List.any_cons, List.any_nil, Bool.or_eq_false_iff] at hpass
    exact hpass.2.2.2.2.1
  refine ⟨?_, ?_⟩
  · intro hb
    have hbne : base.isEmpty = false := by
      cases base with
      | nil => exact absurd hb (by decide)
      | cons x xs => rfl
    rcases hparse : urlsplitD [] base with _ | su
    · rw [validHttpBase, hparse] at hb
      cases hb
    · rw [validHttpBase, hparse] at hb
      obtain ⟨hsch, hnl⟩ := Bool.and_eq_true _ _ |>.mp hb
      have hrparse := urlsplitD_relative su.scheme u hnosch hss
      have hjoin : ∃ su2 : SplitUrl, urljoinM base u = some (urlunsplit su2) ∧
          su2.scheme = su.scheme ∧ su2.netloc = su.netloc := by
        have hrel : su.scheme ∈ usesRelative := by
          rcases Bool.or_eq_true _ _ |>.mp hsch with h | h <;>
            rw [of_decide_eq_true h] <;> decide
        have hnetl : su.scheme ∈ usesNetloc := by
          rcases Bool.or_eq_true _ _ |>.mp hsch with h | h <;>
            rw [of_decide_eq_true h] <;> decide
        simp only [urljoinM, hbne, hne, Bool.false_eq_true, if_false, hparse, hrparse]
        rw [if_neg (by simp [hrel])]
        rw [if_neg (by simp)]
        simp only [hnetl, if_true, ite_true]
        by_cases hp : ((u.takeWhile (fun b => b ≠ 35)).takeWhile (fun b => b ≠ 63)).isEmpty
        · simp only [hp, if_true, ite_true]
          exact ⟨_, rfl, rfl, rfl⟩
        · simp only [hp, Bool.false_eq_true, if_false, ite_false]
          exact ⟨_, rfl, rfl, rfl⟩
      obtain ⟨su2, hj, hsc2, hnl2⟩ := hjoin
      have hv : make_absolute base u = urlunsplit su2 := by rw [hma, hj]
      have habs : isHttpAbs (urlunsplit su2) = true := by
        apply urlunsplit_isHttpAbs
        · rw [hsc2]
          rcases Bool.or_eq_true _ _ |>.mp hsch with h | h
          · exact Or.inl (of_decide_eq_true h)
          · exact Or.inr (of_decide_eq_true h)
        · rw [hnl2]
          simpa using hnl
      rw [hv]
      exact ⟨habs, make_absolute_of_httpAbs base2 _ habs⟩
  · intro hn
    rw [hma, hn]

/-- Witness for C9 at `resolve("img/a.png", "https://example.com/dir/page.html")`,
re-resolved against a different base. -/
theorem c9_make_absolute_absolute_and_fixed_point_witness :
    relativeNoScheme (bytes "img/a.png") = true ∧
    ((validHttpBase (bytes "https://example.com/dir/page.html") = true →
      isHttpAbs (make_absolute (bytes "https://example.com/dir/page.html")
        (bytes "img/a.png")) = true ∧
      make_absolute (bytes "https://other.org/")
          (make_absolute (bytes "https://example.com/dir/page.html") (bytes "img/a.png"))
        = make_absolute (bytes "https://example.com/dir/page.html") (bytes "img/a.png"))
    ∧ (urljoinM (bytes "https://example.com/dir/page.html") (bytes "img/a.png") = none →
      make_absolute (bytes "https://example.com/dir/page.html") (bytes "img/a.png")
        = bytes "img/a.png")) :=
  ⟨by decide,
    c9_make_absolute_absolute_and_fixed_point (bytes "https://example.com/dir/page.html")
      (bytes "https://other.org/") (bytes "img/a.png") (by decide)⟩

/-! ### Claim C5: resource relay error handling
(`ResourceProxyService.proxy_resource`). -/

def natDigitsGo : Nat → Nat → Bytes
  | 0, _ => []
  | fuel + 1, n => if n < 10 then [48 + n] else natDigitsGo fuel (n / 10) ++ [48 + n % 10]

/-- Decimal rendering of a number, as Python's `%s` formatting renders the
upstream status code. -/
def natDigits (n : Nat) : Bytes := natDigitsGo (n + 1) n

inductive TransportKind | dnsFailure | connectionRefused | readTimeout
deriving DecidableEq, Repr

/-- Representative `str(e)` of the transport-level `requests` exceptions
(DNS failure, connection refused, read timeout).  Modelled after the
library's messages, none of which begins with a digit. -/
def transportMsg : TransportKind → Bytes
  | .dnsFailure => bytes "Failed to resolve hostname"
  | .connectionRefused => bytes "Connection refused"
  | .readTimeout => bytes "Read timed out."

/-- Upstream outcome of `requests.get`: a response carrying a status code,
reason phrase, body and headers, or a transport-level exception. -/
inductive UpstreamResult where
  | response (status : Nat) (reason body : Bytes)
      (contentType cacheControl expiresHdr : Option Bytes)
  | transport (k : TransportKind)

/-- `str` of the `HTTPError` raised by `raise_for_status` for a 4xx/5xx
status: `"<code> Client Error: <reason> for url: <url>"`
(`Server Error` for 5xx). -/
def httpErrStr (status : Nat) (reason url : Bytes) : Bytes :=
  natDigits status ++
  (if status < 500 then bytes " Client Error: " else bytes " Server Error: ") ++
  reason ++ bytes " for url: " ++ url

/-- The tuple `ResourceProxyService.proxy_resource` returns:
`(content, content_type, headers)` on success, or
`(None, None, {'error': ..., 'url': ...})` on failure. -/
inductive RelayOut where
  | ok (content contentType : Bytes) (headers : List (Bytes × Bytes))
  | failure (msg url : Bytes)
deriving DecidableEq, Repr

/-- `ResourceProxyService.proxy_resource`: fetch with browser-like headers,
`raise_for_status`, then CORS/cache header normalization; every `requests`
exception (HTTP error status and transport failure alike) is caught and
converted into the error-dict result with the url echoed back. -/
def ResourceProxyService_proxy_resource (resource_url : Bytes)
    (outcome : UpstreamResult) : RelayOut :=
  match outcome with
  | .transport k =>
    .failure (bytes "Failed to fetch resource: " ++ transportMsg k) resource_url
  | .response status reason body ct cc exp =>
    if 400 ≤ status ∧ status < 600 then
      .failure (bytes "Failed to fetch resource: " ++ httpErrStr status reason resource_url)
        resource_url
    else
      .ok body (ct.getD (bytes "application/octet-stream"))
        ([(bytes "Access-Control-Allow-Origin", bytes "*"),
          (bytes "Access-Control-Allow-Methods", bytes "GET, OPTIONS"),
          (bytes "Access-Control-Allow-Headers", bytes "*"),
          (bytes "X-Frame-Options", bytes "ALLOWALL")] ++
         (match cc, exp with
          | some v, _ => [(bytes "Cache-Control", v)]
          | none, some v => [(bytes "Expires", v)]
          | none, none => []))

theorem natDigitsGo_head : ∀ (fuel n : Nat), n < fuel →
    ∃ d, (natDigitsGo fuel n).head? = some d ∧ 48 ≤ d ∧ d ≤ 57 := by
  intro fuel
  induction fuel with
  | zero => intro n h; omega
  | succ f ih =>
    intro n _
    by_cases h10 : n < 10
    · refine ⟨48 + n, ?_, by omega, by omega⟩
      unfold natDigitsGo
      rw [if_pos h10]
      rfl
    · have hlt : n / 10 < f := by
        have h1 : n / 10 < n := Nat.div_lt_self (by omega) (by omega)
        omega
      obtain ⟨d, hd, h1, h2⟩ := ih (n / 10) hlt
      refine ⟨d, ?_, h1, h2⟩
      unfold natDigitsGo
      rw [if_neg h10]
      cases hxs : natDigitsGo f (n / 10) with
      | nil => rw [hxs] at hd; simp at hd
      | cons a t =>
        rw [hxs] at hd
        simp only [List.head?_cons, Option.some.injEq] at hd
        subst hd
        rfl

theorem httpErrStr_ne_transportMsg (status : Nat) (reason url : Bytes)
    (k : TransportKind) : httpErrStr status reason url ≠ transportMsg k := by
  intro heq
  obtain ⟨d, hd, h1, h2⟩ := natDigitsGo_head (status + 1) status (by omega)
  have hL : (httpErrStr status reason url).head? = some d := by
    unfold httpErrStr natDigits
    cases hxs : natDigitsGo (status + 1) status with
    | nil => rw [hxs] at hd; simp at hd
    | cons a t =>
      rw [hxs] at hd
      simp only [List.head?_cons, Option.some.injEq] at hd
      subst hd
      rfl
  rw [heq] at hL
  cases k <;> (simp [transportMsg, bytes] at hL; omega)

/-- substring embedding used to show the status context is carried inside
the failure message. -/
theorem containsSub_append_mid : ∀ (a n b : Bytes),
    containsSub n (a ++ (n ++ b)) = true := by
  intro a
  induction a with
  | nil =>
    intro n b
    cases n with
    | nil =>
      cases b with
      | nil => rfl
      | cons c t => simp [containsSub]
    | cons c t =>
      show containsSub (c :: t) ((c :: t) ++ b) = true
      unfold containsSub
      rw [startsWith_append_self (c :: t) b |>.symm]
      simp [startsWith]
  | cons x xs ih =>
    intro n b
    show containsSub n (x :: (xs ++ (n ++ b))) = true
    unfold containsSub
    rw [ih n b, Bool.or_true]

/-- C5. An upstream HTTP error status yields the caught error-dict result
carrying the status context (not a propagated exception); a transport-level
failure yields an error-dict with a distinct message; the requested url is
echoed back in both. -/
theorem c5_relay_failure_taxonomy (url reason body : Bytes)
    (ct cc exp : Option Bytes) (status : Nat) (k : TransportKind)
    (hs : (400 ≤ status && status < 600) = true) :
    ResourceProxyService_proxy_resource url (.response status reason body ct cc exp)
      = .failure (bytes "Failed to fetch resource: " ++ httpErrStr status reason url) url
    ∧ containsSub (natDigits status)
        (bytes "Failed to fetch resource: " ++ httpErrStr status reason url) = true
    ∧ ResourceProxyService_proxy_resource url (.transport k)
      = .failure (bytes "Failed to fetch resource: " ++ transportMsg k) url
    ∧ bytes "Failed to fetch resource: " ++ httpErrStr status reason url
      ≠ bytes "Failed to fetch resource: " ++ transportMsg k := by
  obtain ⟨hs1, hs2⟩ := Bool.and_eq_true _ _ |>.mp hs
  refine ⟨?_, ?_, rfl, ?_⟩
  · simp only [ResourceProxyService_proxy_resource]
    rw [if_pos ⟨of_decide_eq_true hs1, of_decide_eq_true hs2⟩]
  · have := containsSub_append_mid (bytes "Failed to fetch resource: ") (natDigits status)
      ((if status < 500 then bytes " Client Error: " else bytes " Server Error: ") ++
        (reason ++ (bytes " for url: " ++ url)))
    simpa [httpErrStr, List.append_assoc] using this
  · intro heq
    exact httpErrStr_ne_transportMsg status reason url k (List.append_cancel_left heq)

/-- Witness for C5 at a 404 upstream response and a refused connection. -/
theorem c5_relay_failure_taxonomy_witness :
    ((400 ≤ 404 && 404 < 600) = true) ∧
    (ResourceProxyService_proxy_resource (bytes "https://example.com/missing.css")
        (.response 404 (bytes "Not Found") [] none none none)
      = .failure (bytes "Failed to fetch resource: "
          ++ httpErrStr 404 (bytes "Not Found") (bytes "https://example.com/missing.css"))
        (bytes "https://example.com/missing.css")
    ∧ containsSub (natDigits 404)
        (bytes "Failed to fetch resource: "
          ++ httpErrStr 404 (bytes "Not Found") (bytes "https://example.com/missing.css")) = true
    ∧ ResourceProxyService_proxy_resource (bytes "https://example.com/missing.css")
        (.transport .connectionRefused)
      = .failure (bytes "Failed to fetch resource: " ++ transportMsg .connectionRefused)
        (bytes "https://example.com/missing.css")
    ∧ bytes "Failed to fetch resource: "
        ++ httpErrStr 404 (bytes "Not Found") (bytes "https://example.com/missing.css")
      ≠ bytes "Failed to fetch resource: " ++ transportMsg .connectionRefused) :=
  ⟨by decide,
    c5_relay_failure_taxonomy (bytes "https://example.com/missing.css") (bytes "Not Found")
      [] none none none 404 .connectionRefused (by decide)⟩

/-! ### Claim C3: browser resource teardown
(`ProxyService.render_website` with its `finally` block and
`ProxyService._cleanup_resources`; `views.proxy_website` duplicates the
same guarded sequence in its success, timeout and exception paths). -/

inductive BrowserRes | page | context | browser | playwright
deriving DecidableEq, Repr

/-- Failure injection for one render call: which pipeline step raises and
which `close()`/`stop()` calls raise during cleanup. -/
structure RenderRunCfg where
  startFails : Bool        -- `sync_playwright().start()`
  launchFails : Bool       -- `playwright.chromium.launch(...)`
  contextFails : Bool      -- `browser.new_context(...)`
  newPageFails : Bool      -- `context.new_page()`
  navFails : Bool          -- `page.goto` / `evaluate` / `content`
  pageCloseFails : Bool
  contextCloseFails : Bool
  browserCloseFails : Bool
  playwrightStopFails : Bool

def acquiredPlaywright (c : RenderRunCfg) : Bool := !c.startFails
def acquiredBrowser (c : RenderRunCfg) : Bool := acquiredPlaywright c && !c.launchFails
def acquiredContext (c : RenderRunCfg) : Bool := acquiredBrowser c && !c.contextFails
def acquiredPage (c : RenderRunCfg) : Bool := acquiredContext c && !c.newPageFails

def closeFailsOf (c : RenderRunCfg) : BrowserRes → Bool
  | .page => c.pageCloseFails
  | .context => c.contextCloseFails
  | .browser => c.browserCloseFails
  | .playwright => c.playwrightStopFails

def acquiredOf (c : RenderRunCfg) : BrowserRes → Bool
  | .page => acquiredPage c
  | .context => acquiredContext c
  | .browser => acquiredBrowser c
  | .playwright => acquiredPlaywright c

/-- `_cleanup_resources(page, context, browser, playwright)`: iterate over
the four slots in order; a `None` (never-acquired) slot is skipped; each
close/stop attempt is wrapped in `try/except: pass`, so a failing release
(recorded as a `false` second component) does not stop the loop. -/
def cleanupLoop (cf : BrowserRes → Bool) :
    List (Option BrowserRes) → List (BrowserRes × Bool)
  | [] => []
  | none :: rest => cleanupLoop cf rest
  | some r :: rest => (r, !cf r) :: cleanupLoop cf rest

/-- Release-attempt trace of one `render_website` call: whatever happened
in the `try` body — success, failure at any acquisition step, or a
navigation error — the `finally` block runs `_cleanup_resources` over the
four slots, each holding `None` unless its acquisition step completed. -/
def render_website_cleanup_trace (c : RenderRunCfg) : List (BrowserRes × Bool) :=
  cleanupLoop (closeFailsOf c)
    [if acquiredPage c then some .page else none,
     if acquiredContext c then some .context else none,
     if acquiredBrowser c then some .browser else none,
     if acquiredPlaywright c then some .playwright else none]

/-- C3. On every exit path (any failure point, including partway through
initialization, and any combination of failing close calls), the released
resources are exactly those acquired before the failure, attempted in the
order page, context, browser, playwright; the right-hand side does not
mention the close-failure fields, so a failing release never prevents the
remaining release attempts. -/
theorem c3_cleanup_releases_acquired_in_order (c : RenderRunCfg) :
    (render_website_cleanup_trace c).map Prod.fst
      = [BrowserRes.page, .context, .browser, .playwright].filter (acquiredOf c) := by
  obtain ⟨s, l, x, p, n, pc, cc, bc, ps⟩ := c
  cases s <;> cases l <;> cases x <;> cases p <;> rfl

/-! ### Parsed-document model.
A BeautifulSoup document is modelled as the flat list of its elements in
document order, split into the children reachable from `<head>` and the
rest.  `find_all` walks this order; `decompose` removes an element;
`head.insert(0, x)` conses onto the head list.  Nesting does not influence
any of the modelled operations (all of which are whole-document traversals
and per-element attribute edits). -/

structure Elem where
  tag : Bytes
  attrs : List (Bytes × Bytes)
  text : Option Bytes
deriving DecidableEq, Repr

structure Doc where
  hasHead : Bool
  headElems : List Elem
  bodyElems : List Elem
deriving DecidableEq, Repr

def allElems (d : Doc) : List Elem := d.headElems ++ d.bodyElems

def getAttr (k : Bytes) (e : Elem) : Option Bytes :=
  (e.attrs.find? (fun p => p.1 == k)).map Prod.snd

def hasAttr (k : Bytes) (e : Elem) : Bool := (getAttr k e).isSome

/-- Truthiness of an attribute value, as Python's walrus tests see it. -/
def truthyAttr (k : Bytes) (e : Elem) : Bool :=
  match getAttr k e with
  | some v => !v.isEmpty
  | none => false

def setAttr (k v : Bytes) (e : Elem) : Elem :=
  { e with attrs :=
      if hasAttr k e then e.attrs.map (fun p => if p.1 == k then (k, v) else p)
      else e.attrs ++ [(k, v)] }

def delAttr (k : Bytes) (e : Elem) : Elem :=
  { e with attrs := e.attrs.filter (fun p => !(p.1 == k)) }

/-- `element[k] = f(element[k])` when attribute `k` is present and truthy
(the `if value := element.get(k)` idiom). -/
def mapAttr (k : Bytes) (f : Bytes → Bytes) (e : Elem) : Elem :=
  match getAttr k e with
  | some v => if !v.isEmpty then setAttr k (f v) e else e
  | none => e

/-! ### `_remove_blocking_headers` -/

/-- The meta-removal conditions of `_remove_blocking_headers`: exact
(lowercased) `http-equiv` match against the three blocking names,
`content-security-policy`/`csp` substring in `name`, or
`content-security-policy` substring in `content`. -/
def blockedMeta (e : Elem) : Bool :=
  e.tag == bytes "meta" &&
  (let he := lower ((getAttr (bytes "http-equiv") e).getD [])
   let nm := lower ((getAttr (bytes "name") e).getD [])
   let ct := lower ((getAttr (bytes "content") e).getD [])
   (he == bytes "x-frame-options" || he == bytes "content-security-policy" ||
      he == bytes "frame-options") ||
   containsSub (bytes "content-security-policy") nm || containsSub (bytes "csp") nm ||
   containsSub (bytes "content-security-policy") ct)

/-- `re.sub(r'Content-Security-Policy[^;]*;?', '', text, flags=IGNORECASE)`:
each case-insensitive occurrence of the literal is removed together with the
following run of non-semicolon characters and one optional semicolon. -/
def cspSubGo : Nat → Bytes → Bytes
  | 0, s => s
  | _ + 1, [] => []
  | fuel + 1, b :: rest =>
    if lower ((b :: rest).take 23) == bytes "content-security-policy" then
      cspSubGo fuel ((((b :: rest).drop 23).dropWhile (fun x => x ≠ 59)).drop 1)
    else b :: cspSubGo fuel rest

def cspSub (s : Bytes) : Bytes := cspSubGo s.length s

/-- Text edit of `_remove_blocking_headers` for `script`/`style` elements
whose string mentions `Content-Security-Policy`. -/
def stripCspText (e : Elem) : Elem :=
  if e.tag == bytes "script" || e.tag == bytes "style" then
    match e.text with
    | some t =>
      if containsSub (bytes "Content-Security-Policy") t then
        { e with text := some (cspSub t) }
      else e
    | none => e
  else e

/-- `_remove_blocking_headers` over a traversal list: decompose the blocked
meta tags, then rewrite CSP mentions out of script/style text. -/
def remove_blocking_headers (es : List Elem) : List Elem :=
  (es.filter (fun e => !blockedMeta e)).map stripCspText

/-! ### `_proxy_resources` (and the inline twin in `views.proxy_website`) -/

/-- srcset candidate handling after stripping: split off a last-space
descriptor if present, rewrite (and re-strip) the url part, keep the
stripped descriptor verbatim. -/
def srcsetPartStripped (pf : Bytes → Bytes) (part : Bytes) : Bytes :=
  if part.contains 32 then
    match rsplitOnce 32 part with
    | some (u, d) => pf (pyStrip u) ++ [32] ++ pyStrip d
    | none => pf part
  else pf part

/-- srcset candidate handling: strip, then process. -/
def srcsetPart (pf : Bytes → Bytes) (part0 : Bytes) : Bytes :=
  srcsetPartStripped pf (pyStrip part0)

/-- The srcset rewriting loop: split on commas, rewrite each candidate,
re-join with `", "`. -/
def srcsetRewrite (pf : Bytes → Bytes) (srcset : Bytes) : Bytes :=
  joinSep (bytes ", ") ((pySplit 44 srcset).map (srcsetPart pf))

/-- `re.sub(r'url\(([^)]+)\)', replace_url, style)`: each `url(...)` whose
parenthesised content is nonempty and closed is replaced by
`rep content`; `rep` itself supplies the `url('...')` wrapper or returns
the original text. -/
def cssUrlGo (rep : Bytes → Bytes) : Nat → Bytes → Bytes
  | 0, s => s
  | _ + 1, [] => []
  | fuel + 1, b :: rest =>
    if (b :: rest).take 4 == bytes "url(" then
      let rest4 := (b :: rest).drop 4
      let inner := rest4.takeWhile (fun x => x ≠ 41)
      if !inner.isEmpty && inner.length < rest4.length then
        rep inner ++ cssUrlGo rep fuel (rest4.drop (inner.length + 1))
      else b :: cssUrlGo rep fuel rest
    else b :: cssUrlGo rep fuel rest

def cssUrlSub (rep : Bytes → Bytes) (s : Bytes) : Bytes := cssUrlGo rep s.length s

/-- `replace_url` of `ProxyService._proxy_resources`: quotes are stripped
first, relative URLs are resolved then proxied, absolute http(s) URLs are
proxied directly, anything else is left as the original `url(...)` text. -/
def replaceUrlService (base scheme : Bytes) (inner : Bytes) : Bytes :=
  let uc := stripQuotes inner
  if !uc.isEmpty && !startsWithAny
      [bytes "http://", bytes "https://", bytes "data:", bytes "blob:", bytes "//"] uc then
    bytes "url(\x27" ++ proxy_url_path scheme (make_absolute base uc) ++ bytes "\x27)"
  else if !uc.isEmpty && startsWithAny [bytes "http://", bytes "https://"] uc then
    bytes "url(\x27" ++ proxy_url_path scheme uc ++ bytes "\x27)"
  else bytes "url(" ++ inner ++ bytes ")"

/-- `replace_url` of `views.proxy_website`: prefix tests happen on the raw
match, quotes are stripped only inside the taken branch, and the
query-based encoder is used. -/
def replaceUrlViews (base scheme : Bytes) (inner : Bytes) : Bytes :=
  if !inner.isEmpty && !startsWithAny
      [bytes "http://", bytes "https://", bytes "data:", bytes "blob:", bytes "//"] inner then
    bytes "url(\x27" ++ proxy_url_query scheme (make_absolute base (stripQuotes inner)) ++ bytes "\x27)"
  else if !inner.isEmpty && startsWithAny [bytes "http://", bytes "https://"] inner then
    bytes "url(\x27" ++ proxy_url_query scheme (stripQuotes inner) ++ bytes "\x27)"
  else bytes "url(" ++ inner ++ bytes ")"

/-- Removal of a truthy attribute
(`if link.get('integrity'): del link['integrity']`). -/
def delIfTruthy (k : Bytes) (e : Elem) : Elem :=
  if truthyAttr k e then delAttr k e else e

/-- `link` pass: rewrite `href` through the encoder and drop truthy
`integrity`/`crossorigin` attributes. -/
def linkFix (pf : Bytes → Bytes) (e : Elem) : Elem :=
  if e.tag == bytes "link" && hasAttr (bytes "rel") e then
    delIfTruthy (bytes "crossorigin") (delIfTruthy (bytes "integrity") (mapAttr (bytes "href") pf e))
  else e

/-- `script[src]` pass. -/
def scriptFix (pf : Bytes → Bytes) (e : Elem) : Elem :=
  if e.tag == bytes "script" && hasAttr (bytes "src") e then
    delIfTruthy (bytes "crossorigin") (delIfTruthy (bytes "integrity") (mapAttr (bytes "src") pf e))
  else e

def imgSrcFix (pf : Bytes → Bytes) (e : Elem) : Elem :=
  if e.tag == bytes "img" && hasAttr (bytes "src") e then mapAttr (bytes "src") pf e else e

def imgSrcsetFix (pf : Bytes → Bytes) (e : Elem) : Elem :=
  if e.tag == bytes "img" && hasAttr (bytes "srcset") e then
    mapAttr (bytes "srcset") (srcsetRewrite pf) e
  else e

/-- Media pass of `_proxy_resources`: `source`/`video`/`audio`/`object`/
`embed`, attributes `src`, `srcset` (srcset-parsed), `data`. -/
def mediaFix (pf : Bytes → Bytes) (e : Elem) : Elem :=
  if [bytes "source", bytes "video", bytes "audio", bytes "object",
      bytes "embed"].contains e.tag then
    mapAttr (bytes "data") pf
      (mapAttr (bytes "srcset") (srcsetRewrite pf) (mapAttr (bytes "src") pf e))
  else e

/-- Anchor pass: resolve to absolute but do not proxy; fragment/javascript/
mailto/tel links untouched. -/
def aFix (mabs : Bytes → Bytes) (e : Elem) : Elem :=
  if e.tag == bytes "a" && hasAttr (bytes "href") e then
    match getAttr (bytes "href") e with
    | some href =>
      if !href.isEmpty && !startsWithAny
          [bytes "#", bytes "javascript:", bytes "mailto:", bytes "tel:"] href then
        setAttr (bytes "href") (mabs href) e
      else e
    | none => e
  else e

def formFix (mabs : Bytes → Bytes) (e : Elem) : Elem :=
  if e.tag == bytes "form" && hasAttr (bytes "action") e then
    mapAttr (bytes "action") mabs e
  else e

/-- Inline-style pass: applies the `url(...)` rewriter when the style
attribute mentions `url(`. -/
def styleFix (rep : Bytes → Bytes) (e : Elem) : Elem :=
  match getAttr (bytes "style") e with
  | some st =>
    if containsSub (bytes "url(") st then setAttr (bytes "style") (cssUrlSub rep st) e
    else e
  | none => e

/-- Per-element composition of the `_proxy_resources` passes, in source
order: link, script, img src, img srcset, media elements, anchors, forms,
inline styles.  Each source loop is a whole-document traversal touching
disjoint state, so running them in sequence equals mapping this composition
over the traversal list. -/
def pfService (base scheme : Bytes) : Bytes → Bytes :=
  fun u => proxy_url_path scheme (make_absolute base u)

def rewriteElemService (base scheme : Bytes) (e : Elem) : Elem :=
  styleFix (replaceUrlService base scheme)
    (formFix (make_absolute base) (aFix (make_absolute base)
      (mediaFix (pfService base scheme) (imgSrcsetFix (pfService base scheme)
        (imgSrcFix (pfService base scheme) (scriptFix (pfService base scheme)
          (linkFix (pfService base scheme) e)))))))

/-! Views-only passes (the inline pipeline handles a few element kinds
differently: `source` loops, `video`/`audio` src only, `object`/`embed`
src, `object` data, and an iframe pass that only absolutizes). -/

def sourceSrcFix (pf : Bytes → Bytes) (e : Elem) : Elem :=
  if e.tag == bytes "source" && hasAttr (bytes "src") e then mapAttr (bytes "src") pf e else e

def sourceSrcsetFix (pf : Bytes → Bytes) (e : Elem) : Elem :=
  if e.tag == bytes "source" && hasAttr (bytes "srcset") e then
    mapAttr (bytes "srcset") (srcsetRewrite pf) e
  else e

def avSrcFix (pf : Bytes → Bytes) (e : Elem) : Elem :=
  if [bytes "video", bytes "audio"].contains e.tag && hasAttr (bytes "src") e then
    mapAttr (bytes "src") pf e
  else e

def objEmbedSrcFix (pf : Bytes → Bytes) (e : Elem) : Elem :=
  if [bytes "object", bytes "embed"].contains e.tag && hasAttr (bytes "src") e then
    mapAttr (bytes "src") pf e
  else e

def objDataFix (pf : Bytes → Bytes) (e : Elem) : Elem :=
  if e.tag == bytes "object" && hasAttr (bytes "data") e then mapAttr (bytes "data") pf e
  else e

def iframeFix (mabs : Bytes → Bytes) (e : Elem) : Elem :=
  if e.tag == bytes "iframe" && hasAttr (bytes "src") e then mapAttr (bytes "src") mabs e
  else e

/-- Per-element composition of the inline `views.proxy_website` passes, in
source order. -/
def pfViews (base scheme : Bytes) : Bytes → Bytes :=
  fun u => proxy_url_query scheme (make_absolute base u)

def rewriteElemViews (base scheme : Bytes) (e : Elem) : Elem :=
  styleFix (replaceUrlViews base scheme)
    (iframeFix (make_absolute base) (objDataFix (pfViews base scheme)
      (objEmbedSrcFix (pfViews base scheme) (avSrcFix (pfViews base scheme)
        (formFix (make_absolute base) (aFix (make_absolute base)
          (sourceSrcsetFix (pfViews base scheme) (sourceSrcFix (pfViews base scheme)
            (imgSrcsetFix (pfViews base scheme) (imgSrcFix (pfViews base scheme)
              (scriptFix (pfViews base scheme) (linkFix (pfViews base scheme) e))))))))))))

/-! ### `_add_base_and_scripts` and the inline tail of `views.proxy_website` -/

/-- Join source lines with newlines, with the leading and trailing newline
of a Python triple-quoted string. -/
def jsText (ls : List String) : Bytes := [10] ++ joinSep [10] (ls.map bytes) ++ [10]

/-- The URL-patching script injected by `views.proxy_website`. -/
def viewsScriptText : Bytes := jsText
  ["(function() \x7b",
   "    var proxyBase = window.location.origin;",
   "    function rewriteProxyUrls() \x7b",
   "        document.querySelectorAll(\x27link[href*=\"\x7b\x7bPROXY_BASE\x7d\x7d\"]\x27).forEach(function(link) \x7b",
   "            link.href = link.href.replace(/\\\x7b\\\x7bPROXY_BASE\\\x7d\\\x7d/g, proxyBase);",
   "        \x7d);",
   "        document.querySelectorAll(\x27script[src*=\"\x7b\x7bPROXY_BASE\x7d\x7d\"]\x27).forEach(function(script) \x7b",
   "            script.src = script.src.replace(/\\\x7b\\\x7bPROXY_BASE\\\x7d\\\x7d/g, proxyBase);",
   "        \x7d);",
   "        document.querySelectorAll(\x27img[src*=\"\x7b\x7bPROXY_BASE\x7d\x7d\"]\x27).forEach(function(img) \x7b",
   "            img.src = img.src.replace(/\\\x7b\\\x7bPROXY_BASE\\\x7d\\\x7d/g, proxyBase);",
   "        \x7d);",
   "        document.querySelectorAll(\x27[srcset*=\"\x7b\x7bPROXY_BASE\x7d\x7d\"]\x27).forEach(function(el) \x7b",
   "            el.srcset = el.srcset.replace(/\\\x7b\\\x7bPROXY_BASE\\\x7d\\\x7d/g, proxyBase);",
   "        \x7d);",
   "        document.querySelectorAll(\x27[style*=\"\x7b\x7bPROXY_BASE\x7d\x7d\"]\x27).forEach(function(el) \x7b",
   "            el.style.cssText = el.style.cssText.replace(/\\\x7b\\\x7bPROXY_BASE\\\x7d\\\x7d/g, proxyBase);",
   "        \x7d);",
   "    \x7d",
   "    if (document.readyState === \x27loading\x27) \x7b",
   "        document.addEventListener(\x27DOMContentLoaded\x27, rewriteProxyUrls);",
   "    \x7d else \x7b",
   "        rewriteProxyUrls();",
   "    \x7d",
   "    setTimeout(rewriteProxyUrls, 100);",
   "\x7d)();"]

/-- The URL-patching script injected by `ProxyService._add_base_and_scripts`
(it additionally patches the base tag). -/
def serviceScriptText : Bytes := jsText
  ["(function() \x7b",
   "    var proxyBase = window.location.origin;",
   "    function rewriteProxyUrls() \x7b",
   "        // Rewrite base tag",
   "        var baseTag = document.querySelector(\x27base\x27);",
   "        if (baseTag && baseTag.href.includes(\x27\x7b\x7bPROXY_BASE\x7d\x7d\x27)) \x7b",
   "            baseTag.href = baseTag.href.replace(/\\\x7b\\\x7bPROXY_BASE\\\x7d\\\x7d/g, proxyBase);",
   "        \x7d",
   "",
   "        document.querySelectorAll(\x27link[href*=\"\x7b\x7bPROXY_BASE\x7d\x7d\"]\x27).forEach(function(link) \x7b",
   "            link.href = link.href.replace(/\\\x7b\\\x7bPROXY_BASE\\\x7d\\\x7d/g, proxyBase);",
   "        \x7d);",
   "        document.querySelectorAll(\x27script[src*=\"\x7b\x7bPROXY_BASE\x7d\x7d\"]\x27).forEach(function(script) \x7b",
   "            script.src = script.src.replace(/\\\x7b\\\x7bPROXY_BASE\\\x7d\\\x7d/g, proxyBase);",
   "        \x7d);",
   "        document.querySelectorAll(\x27img[src*=\"\x7b\x7bPROXY_BASE\x7d\x7d\"]\x27).forEach(function(img) \x7b",
   "            img.src = img.src.replace(/\\\x7b\\\x7bPROXY_BASE\\\x7d\\\x7d/g, proxyBase);",
   "        \x7d);",
   "        document.querySelectorAll(\x27[srcset*=\"\x7b\x7bPROXY_BASE\x7d\x7d\"]\x27).forEach(function(el) \x7b",
   "            el.srcset = el.srcset.replace(/\\\x7b\\\x7bPROXY_BASE\\\x7d\\\x7d/g, proxyBase);",
   "        \x7d);",
   "        document.querySelectorAll(\x27[style*=\"\x7b\x7bPROXY_BASE\x7d\x7d\"]\x27).forEach(function(el) \x7b",
   "            el.style.cssText = el.style.cssText.replace(/\\\x7b\\\x7bPROXY_BASE\\\x7d\\\x7d/g, proxyBase);",
   "        \x7d);",
   "    \x7d",
   "    if (document.readyState === \x27loading\x27) \x7b",
   "        document.addEventListener(\x27DOMContentLoaded\x27, rewriteProxyUrls);",
   "    \x7d else \x7b",
   "        rewriteProxyUrls();",
   "    \x7d",
   "    setTimeout(rewriteProxyUrls, 100);",
   "\x7d)();"]

/-- The permissive CSP meta tag both pipelines insert. -/
def cspMetaElem : Elem :=
  ⟨bytes "meta",
   [(bytes "http-equiv", bytes "Content-Security-Policy"),
    (bytes "content", bytes "default-src * \x27unsafe-inline\x27 \x27unsafe-eval\x27 data: blob:;")],
   none⟩

def scriptElemService : Elem := ⟨bytes "script", [], some serviceScriptText⟩

def scriptElemViews : Elem := ⟨bytes "script", [], some viewsScriptText⟩

def isBaseTag (e : Elem) : Bool := e.tag == bytes "base"

/-- `soup.find('base')['href'] = v`: update the first base element in
document order. -/
def updateFirstBase (href : Bytes) : List Elem → List Elem
  | [] => []
  | e :: rest =>
    if isBaseTag e then setAttr (bytes "href") href e :: rest
    else e :: updateFirstBase href rest

/-- Ensure-a-base-tag step shared by both pipelines: insert one at the head
front when no base exists (and a head does), else update the first existing
base in document order. -/
def ensureBase (href : Bytes) (d : Doc) : Doc :=
  if !(allElems d).any isBaseTag then
    (if d.hasHead then
      { d with headElems := Elem.mk (bytes "base") [(bytes "href", href)] none :: d.headElems }
     else d)
  else if d.headElems.any isBaseTag then
    { d with headElems := updateFirstBase href d.headElems }
  else
    { d with bodyElems := updateFirstBase href d.bodyElems }

/-- CSP meta + patching script insertion of `_add_base_and_scripts`. -/
def injectHeadService (d : Doc) : Doc :=
  if d.hasHead then
    { d with headElems := scriptElemService :: cspMetaElem :: d.headElems }
  else d

/-- `ProxyService._add_base_and_scripts(soup, base_url)`: ensure a base tag
whose href is the path-proxied base URL (inserting at the head front, or
updating the first existing base in place), then insert the permissive CSP
meta tag and the URL-patching script at the head front. -/
def add_base_and_scripts (d : Doc) (base_url : Bytes) : Doc :=
  injectHeadService (ensureBase (pRelayMark ++ base_url) d)

/-- `parsed_url.scheme` of `urlparse(base_url)`. -/
def schemeOf (u : Bytes) : Bytes :=
  match urlsplitD [] u with
  | some su => su.scheme
  | none => []

/-- `f"{parsed_url.scheme}://{parsed_url.netloc}"`, the origin base the
routed view resolves against. -/
def originOf (u : Bytes) : Bytes :=
  match urlsplitD [] u with
  | some su => su.scheme ++ bytes "://" ++ su.netloc
  | none => []

/-- Whole-document traversal as a map over both element lists. -/
def mapStage (f : Elem → Elem) (d : Doc) : Doc :=
  { d with headElems := d.headElems.map f, bodyElems := d.bodyElems.map f }

/-- Blocking-signal removal over the whole document. -/
def removeStage (d : Doc) : Doc :=
  { d with headElems := remove_blocking_headers d.headElems,
           bodyElems := remove_blocking_headers d.bodyElems }

/-- `ProxyService._process_html(html, base_url)`: strip blocking signals,
rewrite every resource reference through the path-based encoder resolving
against the full final URL, then add base tag, CSP meta and patching
script. -/
def process_html_service (d : Doc) (base_url : Bytes) : Doc :=
  add_base_and_scripts
    (mapStage (rewriteElemService base_url (schemeOf base_url)) (removeStage d))
    base_url

/-- The extra views-only meta pass
(`find_all('meta', attrs={'http-equiv': re.compile('x-frame-options', re.I)})`). -/
def xfoMetaExtra (e : Elem) : Bool :=
  e.tag == bytes "meta" &&
  (match getAttr (bytes "http-equiv") e with
   | some v => containsSub (bytes "x-frame-options") (lower v)
   | none => false)

/-- A meta whose `http-equiv` matches the CSP regex, as searched by
`soup.head.find` in the views pipeline. -/
def cspEquivMeta (e : Elem) : Bool :=
  e.tag == bytes "meta" &&
  (match getAttr (bytes "http-equiv") e with
   | some v => containsSub (bytes "content-security-policy") (lower v)
   | none => false)

def removeFirst (p : Elem → Bool) : List Elem → List Elem
  | [] => []
  | e :: rest => if p e then rest else e :: removeFirst p rest

/-- Inline rewrite pipeline of `views.proxy_website`: blocking-signal
removal (plus the extra x-frame-options meta pass), the query-based
resource rewriting resolving against the origin, a plain (unproxied) base
href, removal of the first CSP meta in head, and CSP/script injection. -/
def cleanStageViews (d : Doc) : Doc :=
  { d with
    headElems := (remove_blocking_headers d.headElems).filter (fun e => !xfoMetaExtra e),
    bodyElems := (remove_blocking_headers d.bodyElems).filter (fun e => !xfoMetaExtra e) }

/-- Removal of the first head CSP meta plus permissive-CSP insertion of the
views pipeline. -/
def cspStageViews (d : Doc) : Doc :=
  if d.hasHead then
    { d with headElems := cspMetaElem :: removeFirst cspEquivMeta d.headElems }
  else d

def scriptStageViews (d : Doc) : Doc :=
  if d.hasHead then { d with headElems := scriptElemViews :: d.headElems } else d

def process_html_views (d : Doc) (final_url : Bytes) : Doc :=
  scriptStageViews (cspStageViews (ensureBase (originOf final_url)
    (mapStage (rewriteElemViews (originOf final_url) (schemeOf final_url))
      (cleanStageViews d))))

/-! ### Claim C6: navigation timeout fallback in `render_website`. -/

inductive RenderResult where
  | success (html : Doc) (url : Bytes)
  | failure (msg url : Bytes)
deriving DecidableEq, Repr

def RenderResult.isSuccess : RenderResult → Bool
  | .success _ _ => true
  | .failure _ _ => false

/-- The timeout error message of the `except PlaywrightTimeoutError`
handler. -/
def timeoutErrMsg : Bytes :=
  bytes "Request timed out. The website may be slow or taking too long to load."

/-- Navigation behavior of the page being rendered: whether the
`networkidle` goto and the fallback `domcontentloaded` goto time out, and
the DOM and final URL the browser yields when navigation succeeds. -/
structure PageOracle where
  idleTimesOut : Bool
  dclTimesOut : Bool
  dom : Doc
  finalUrl : Bytes

/-- Wait conditions attempted, in order: `networkidle` first, then (only
after its `PlaywrightTimeoutError`) a single `domcontentloaded` retry. -/
def navAttempts (p : PageOracle) : List Bytes :=
  if p.idleTimesOut then [bytes "networkidle", bytes "domcontentloaded"]
  else [bytes "networkidle"]

/-- Navigation/return skeleton of `ProxyService.render_website`: a timeout
of the fallback goto propagates to the outer `except PlaywrightTimeoutError`
and produces the error dict; otherwise the rendered DOM is processed and
returned as a success dict. -/
def render_website_nav (p : PageOracle) (url : Bytes) : RenderResult :=
  if p.idleTimesOut && p.dclTimesOut then .failure timeoutErrMsg url
  else .success (process_html_service p.dom p.finalUrl) p.finalUrl

/-- A page whose navigation exceeds the timeout under both wait
conditions. -/
def slowPage : PageOracle := ⟨true, true, ⟨true, [], []⟩, bytes "https://slow.example/"⟩

/-- C6 counterexample: a render whose navigation exceeds the network-idle
timeout does NOT always return a Success result — when the fallback
`domcontentloaded` navigation also times out, the render fails with the
timeout error. -/
theorem c6_idle_timeout_not_always_success :
    slowPage.idleTimesOut = true ∧
    RenderResult.isSuccess (render_website_nav slowPage (bytes "https://slow.example/")) = false ∧
    render_website_nav slowPage (bytes "https://slow.example/")
      = .failure timeoutErrMsg (bytes "https://slow.example/") := by
  refine ⟨rfl, rfl, rfl⟩

/-- C6 as amended: when the network-idle wait times out and the fallback
navigation completes, the orchestrator falls back exactly once to the
weaker `domcontentloaded` condition and still returns a Success result
carrying the processed DOM available at that point. -/
theorem c6_timeout_falls_back_once_then_success (p : PageOracle) (url : Bytes)
    (h1 : p.idleTimesOut = true) (h2 : p.dclTimesOut = false) :
    navAttempts p = [bytes "networkidle", bytes "domcontentloaded"] ∧
    render_website_nav p url = .success (process_html_service p.dom p.finalUrl) p.finalUrl := by
  simp [navAttempts, render_website_nav, h1, h2]

/-- Witness for the amended C6 at a concrete page whose idle wait times out
but whose fallback succeeds. -/
theorem c6_timeout_falls_back_once_then_success_witness :
    navAttempts ⟨true, false, ⟨true, [], []⟩, bytes "https://ex.com/"⟩
      = [bytes "networkidle", bytes "domcontentloaded"] ∧
    render_website_nav ⟨true, false, ⟨true, [], []⟩, bytes "https://ex.com/"⟩
        (bytes "https://ex.com/")
      = .success
          (process_html_service (⟨true, [], []⟩ : Doc) (bytes "https://ex.com/"))
          (bytes "https://ex.com/") :=
  c6_timeout_falls_back_once_then_success ⟨true, false, ⟨true, [], []⟩, bytes "https://ex.com/"⟩
    (bytes "https://ex.com/") rfl rfl

/-! ### Claim C2: the rewrite is NOT idempotent on the code as written. -/

set_option maxRecDepth 4000

/-- C2 (claim contradicted by the code): re-running `_process_html` on its
own output rewrites already-proxied URLs again — `make_absolute` lacks the
`{{PROXY_BASE}}` placeholder in its passthrough prefixes, so the
already-proxied `img[src]` is resolved against the base as a relative path
and re-encoded — and inserts a second URL-patching script at the head
front.  The two runs are distinguished here by the head length (3 injected
elements vs 4) and by the doubly-encoded `img[src]`. -/
theorem c2_process_html_not_idempotent :
    process_html_service
        (process_html_service
          (Doc.mk true [] [⟨bytes "img", [(bytes "src", bytes "a.png")], none⟩])
          (bytes "https://example.com/dir/page"))
        (bytes "https://example.com/dir/page")
      ≠ process_html_service
          (Doc.mk true [] [⟨bytes "img", [(bytes "src", bytes "a.png")], none⟩])
          (bytes "https://example.com/dir/page") :=
  fun h => absurd
    (congrArg (fun d => (d.headElems.length, d.bodyElems.map (getAttr (bytes "src")))) h)
    (by decide)

/-! ### Claim C7: exactly one base tag with a proxied href. -/

theorem tag_setAttr (k v : Bytes) (e : Elem) : (setAttr k v e).tag = e.tag := rfl

theorem tag_delAttr (k : Bytes) (e : Elem) : (delAttr k e).tag = e.tag := rfl

theorem tag_mapAttr (k : Bytes) (f : Bytes → Bytes) (e : Elem) :
    (mapAttr k f e).tag = e.tag := by
  unfold mapAttr
  cases getAttr k e with
  | none => rfl
  | some v =>
    show (if (!v.isEmpty) = true then setAttr k (f v) e else e).tag = e.tag
    by_cases hv : (!v.isEmpty) = true
    · rw [if_pos hv]
      rfl
    · rw [if_neg hv]

theorem find?_pair_eq_self {k : Bytes} {p : Bytes × Bytes} (h : (p.1 == k) = true) :
    p.1 = k := by
  exact eq_of_beq h

theorem getAttr_setAttr_ne {k k' : Bytes} (v : Bytes) (e : Elem) (h : k ≠ k') :
    getAttr k (setAttr k' v e) = getAttr k e := by
  unfold getAttr setAttr
  by_cases hh : hasAttr k' e
  · simp only [hh, if_true]
    congr 1
    induction e.attrs with
    | nil => rfl
    | cons p l ih =>
      simp only [List.map_cons, List.find?_cons]
      by_cases hpk' : (p.1 == k') = true
      · rw [if_pos hpk']
        have hp1 : p.1 = k' := eq_of_beq hpk'
        have h1 : ((k', v).1 == k) = false := by
          simp only [beq_eq_false_iff_ne, ne_eq]
          exact fun hc => h hc.symm
        have h2 : (p.1 == k) = false := by
          simp only [beq_eq_false_iff_ne, ne_eq, hp1]
          exact fun hc => h hc.symm
        rw [h1, h2]
        simpa using ih
      · rw [if_neg hpk']
        by_cases hpk : (p.1 == k) = true
        · rw [hpk]
        · rw [Bool.eq_false_iff.mpr hpk]
          simpa using ih
  · simp only [hh, if_false, Bool.false_eq_true]
    congr 1
    rw [List.find?_append]
    have hkk : (k' == k) = false := by
      simp only [beq_eq_false_iff_ne, ne_eq]
      exact fun hc => h hc.symm
    have hlast : (([(k', v)] : List (Bytes × Bytes)).find? (fun p => p.1 == k)) = none := by
      simp only [List.find?_cons, List.find?_nil]
      rw [hkk]
    rw [hlast]
    exact Option.or_none


theorem find?_map_set (k v : Bytes) : ∀ (l : List (Bytes × Bytes)),
    (l.find? (fun p => p.1 == k)).isSome = true →
    ((l.map (fun p => if p.1 == k then (k, v) else p)).find?
        (fun p => p.1 == k)).map Prod.snd = some v := by
  intro l
  induction l with
  | nil => intro h; simp at h
  | cons p rest ih =>
    intro h
    simp only [List.map_cons, List.find?_cons]
    by_cases hpk : (p.1 == k) = true
    · rw [if_pos hpk]
      have hkk : ((k, v).1 == k) = true := by simp
      rw [hkk]
      rfl
    · rw [if_neg hpk, Bool.eq_false_iff.mpr hpk]
      rw [List.find?_cons, Bool.eq_false_iff.mpr hpk] at h
      exact ih h

theorem getAttr_setAttr_eq (k v : Bytes) (e : Elem) :
    getAttr k (setAttr k v e) = some v := by
  unfold setAttr
  by_cases hh : hasAttr k e
  · simp only [hh, if_true]
    unfold getAttr
    dsimp only
    apply find?_map_set
    unfold hasAttr getAttr at hh
    simpa using hh
  · simp only [hh, if_false, Bool.false_eq_true]
    unfold getAttr
    dsimp only
    have hfind : e.attrs.find? (fun p => p.1 == k) = none := by
      unfold hasAttr getAttr at hh
      cases hf : e.attrs.find? (fun p => p.1 == k) with
      | none => rfl
      | some p => rw [hf] at hh; simp at hh
    rw [List.find?_append, hfind]
    simp

theorem isBaseTag_of_tag {e e' : Elem} (h : e'.tag = e.tag) :
    isBaseTag e' = isBaseTag e := by
  unfold isBaseTag
  rw [h]

/-! Per-pass facts: every `_proxy_resources` pass preserves the element
tag, and leaves the `href` of a `base` element untouched. -/

theorem tag_delIfTruthy (k : Bytes) (e : Elem) : (delIfTruthy k e).tag = e.tag := by
  unfold delIfTruthy
  split <;> simp only [tag_delAttr]

theorem tag_linkFix (pf : Bytes → Bytes) (e : Elem) : (linkFix pf e).tag = e.tag := by
  unfold linkFix
  split
  · simp only [tag_delIfTruthy, tag_mapAttr]
  · rfl

theorem tag_scriptFix (pf : Bytes → Bytes) (e : Elem) : (scriptFix pf e).tag = e.tag := by
  unfold scriptFix
  split
  · simp only [tag_delIfTruthy, tag_mapAttr]
  · rfl

theorem tag_imgSrcFix (pf : Bytes → Bytes) (e : Elem) : (imgSrcFix pf e).tag = e.tag := by
  unfold imgSrcFix
  split
  · exact tag_mapAttr _ _ _
  · rfl

theorem tag_imgSrcsetFix (pf : Bytes → Bytes) (e : Elem) :
    (imgSrcsetFix pf e).tag = e.tag := by
  unfold imgSrcsetFix
  split
  · exact tag_mapAttr _ _ _
  · rfl

theorem tag_mediaFix (pf : Bytes → Bytes) (e : Elem) : (mediaFix pf e).tag = e.tag := by
  unfold mediaFix
  split
  · simp only [tag_mapAttr]
  · rfl

theorem tag_aFix (mabs : Bytes → Bytes) (e : Elem) : (aFix mabs e).tag = e.tag := by
  unfold aFix
  split
  · split
    · split <;> simp only [tag_setAttr]
    · rfl
  · rfl

theorem tag_formFix (mabs : Bytes → Bytes) (e : Elem) : (formFix mabs e).tag = e.tag := by
  unfold formFix
  split
  · exact tag_mapAttr _ _ _
  · rfl

theorem tag_styleFix (rep : Bytes → Bytes) (e : Elem) : (styleFix rep e).tag = e.tag := by
  unfold styleFix
  split
  · split <;> simp only [tag_setAttr]
  · rfl

theorem tag_rewriteElemService (b s : Bytes) (e : Elem) :
    (rewriteElemService b s e).tag = e.tag := by
  unfold rewriteElemService
  simp only [tag_styleFix, tag_formFix, tag_aFix, tag_mediaFix, tag_imgSrcsetFix,
    tag_imgSrcFix, tag_scriptFix, tag_linkFix]

theorem linkFix_of_other_tag (pf : Bytes → Bytes) {e : Elem}
    (h : (e.tag == bytes "link") = false) : linkFix pf e = e := by
  unfold linkFix
  rw [h]
  rfl

theorem scriptFix_of_other_tag (pf : Bytes → Bytes) {e : Elem}
    (h : (e.tag == bytes "script") = false) : scriptFix pf e = e := by
  unfold scriptFix
  rw [h]
  rfl

theorem imgSrcFix_of_other_tag (pf : Bytes → Bytes) {e : Elem}
    (h : (e.tag == bytes "img") = false) : imgSrcFix pf e = e := by
  unfold imgSrcFix
  rw [h]
  rfl

theorem imgSrcsetFix_of_other_tag (pf : Bytes → Bytes) {e : Elem}
    (h : (e.tag == bytes "img") = false) : imgSrcsetFix pf e = e := by
  unfold imgSrcsetFix
  rw [h]
  rfl

theorem mediaFix_of_other_tag (pf : Bytes → Bytes) {e : Elem}
    (h : ([bytes "source", bytes "video", bytes "audio", bytes "object",
           bytes "embed"].contains e.tag) = false) : mediaFix pf e = e := by
  unfold mediaFix
  rw [h]
  rfl

theorem aFix_of_other_tag (mabs : Bytes → Bytes) {e : Elem}
    (h : (e.tag == bytes "a") = false) : aFix mabs e = e := by
  unfold aFix
  rw [h]
  rfl

theorem formFix_of_other_tag (mabs : Bytes → Bytes) {e : Elem}
    (h : (e.tag == bytes "form") = false) : formFix mabs e = e := by
  unfold formFix
  rw [h]
  rfl

theorem href_styleFix (rep : Bytes → Bytes) (e : Elem) :
    getAttr (bytes "href") (styleFix rep e) = getAttr (bytes "href") e := by
  unfold styleFix
  split
  · split
    · exact getAttr_setAttr_ne _ _ (by decide)
    · rfl
  · rfl

/-- A `base` element keeps its `href` through the whole per-element rewrite
composition. -/
theorem href_rewriteElemService_base (b s : Bytes) {e : Elem}
    (h : e.tag = bytes "base") :
    getAttr (bytes "href") (rewriteElemService b s e)
      = getAttr (bytes "href") e := by
  unfold rewriteElemService
  rw [linkFix_of_other_tag _ (by rw [h]; decide),
    scriptFix_of_other_tag _ (by rw [h]; decide),
    imgSrcFix_of_other_tag _ (by rw [h]; decide),
    imgSrcsetFix_of_other_tag _ (by rw [h]; decide),
    mediaFix_of_other_tag _ (by rw [h]; decide),
    aFix_of_other_tag _ (by rw [h]; decide),
    formFix_of_other_tag _ (by rw [h]; decide),
    href_styleFix]

/-! Stage lemmas: the base elements of the traversal list survive the
blocking-header removal untouched, and survive the resource rewriting with
tag and `href` intact. -/

theorem stripCspText_of_base {e : Elem} (h : isBaseTag e = true) :
    stripCspText e = e := by
  have ht : e.tag = bytes "base" := eq_of_beq h
  unfold stripCspText
  rw [ht]
  rfl

theorem tag_stripCspText (e : Elem) : (stripCspText e).tag = e.tag := by
  unfold stripCspText
  split
  · split
    · split <;> rfl
    · rfl
  · rfl

theorem blockedMeta_not_base {e : Elem} (h : blockedMeta e = true) :
    isBaseTag e = false := by
  unfold blockedMeta at h
  obtain ⟨hm, _⟩ := Bool.and_eq_true _ _ |>.mp h
  unfold isBaseTag
  rw [eq_of_beq hm]
  decide

theorem bases_remove_blocking_headers (es : List Elem) :
    (remove_blocking_headers es).filter isBaseTag = es.filter isBaseTag := by
  unfold remove_blocking_headers
  induction es with
  | nil => rfl
  | cons e rest ih =>
    by_cases hb : blockedMeta e = true
    · simp only [List.filter_cons, hb, Bool.not_true, Bool.false_eq_true, if_false,
        blockedMeta_not_base hb]
      exact ih
    · simp only [List.filter_cons, Bool.eq_false_iff.mpr hb, Bool.not_false, if_true,
        List.map_cons]
      rw [isBaseTag_of_tag (tag_stripCspText e)]
      by_cases hbase : isBaseTag e = true
      · rw [hbase]
        simp only [if_true]
        rw [stripCspText_of_base hbase, ih]
      · rw [Bool.eq_false_iff.mpr hbase]
        simp only [Bool.false_eq_true, if_false]
        exact ih

theorem bases_map_rewrite (b s : Bytes) (es : List Elem) :
    (es.map (rewriteElemService b s)).filter isBaseTag
      = (es.filter isBaseTag).map (rewriteElemService b s) := by
  induction es with
  | nil => rfl
  | cons e rest ih =>
    simp only [List.map_cons, List.filter_cons,
      isBaseTag_of_tag (tag_rewriteElemService b s e)]
    by_cases hbase : isBaseTag e = true
    · rw [hbase]
      simp only [if_true, List.map_cons]
      rw [ih]
    · rw [Bool.eq_false_iff.mpr hbase]
      simp only [Bool.false_eq_true, if_false]
      exact ih

theorem updateFirstBase_of_single (href : Bytes) :
    ∀ (es : List Elem) (b0 : Elem), es.filter isBaseTag = [b0] →
      (updateFirstBase href es).filter isBaseTag
        = [setAttr (bytes "href") href b0] := by
  intro es
  induction es with
  | nil => intro b0 h; simp at h
  | cons e rest ih =>
    intro b0 h
    by_cases hbase : isBaseTag e = true
    · rw [List.filter_cons, hbase] at h
      simp only [if_true] at h
      obtain ⟨he, hrest⟩ := List.cons_eq_cons.mp h
      subst he
      unfold updateFirstBase
      rw [if_pos hbase]
      rw [List.filter_cons]
      rw [isBaseTag_of_tag (tag_setAttr _ _ _), hbase]
      simp only [if_true]
      rw [hrest]
    · rw [List.filter_cons, Bool.eq_false_iff.mpr hbase] at h
      simp only [Bool.false_eq_true, if_false] at h
      unfold updateFirstBase
      rw [if_neg hbase]
      rw [List.filter_cons, Bool.eq_false_iff.mpr hbase]
      simp only [Bool.false_eq_true, if_false]
      exact ih b0 h

theorem any_eq_false_of_filter_nil {α : Type} (p : α → Bool) :
    ∀ l : List α, l.filter p = [] → l.any p = false := by
  intro l
  induction l with
  | nil => intro _; rfl
  | cons a t ih =>
    intro h
    rw [List.filter_cons] at h
    by_cases hpa : p a = true
    · rw [hpa] at h
      simp at h
    · rw [Bool.eq_false_iff.mpr hpa] at h
      simp only [Bool.false_eq_true, if_false] at h
      rw [List.any_cons, Bool.eq_false_iff.mpr hpa, ih h]
      rfl

/-- C7 counterexample document: a head already carrying two base
elements. -/
def twoBaseDoc : Doc :=
  ⟨true,
   [⟨bytes "base", [(bytes "href", bytes "https://one.example/")], none⟩,
    ⟨bytes "base", [(bytes "href", bytes "https://two.example/")], none⟩],
   []⟩

/-- C7 counterexample: with two base elements already present, only the
first is updated and the rewritten head still holds two base elements —
"exactly one base element" fails. -/
theorem c7_two_bases_survive :
    ((process_html_service twoBaseDoc (bytes "https://example.com/")).headElems.filter
      isBaseTag).length = 2 := by decide

/-- C7 as amended: provided the document has a head and at most one base
element, all of them in the head, the rewritten document's head contains
exactly one base element, its href is the path-proxied reference to
`base_url`, and an existing base is updated in place (no duplicate is
inserted anywhere). -/
theorem c7_exactly_one_proxied_base (d : Doc) (b : Bytes)
    (hh : d.hasHead = true)
    (hb1 : (d.headElems.filter isBaseTag).length ≤ 1)
    (hb2 : d.bodyElems.filter isBaseTag = []) :
    ((process_html_service d b).headElems.filter isBaseTag).map (getAttr (bytes "href"))
      = [some (pRelayMark ++ b)]
    ∧ (process_html_service d b).bodyElems.filter isBaseTag = [] := by
  unfold process_html_service add_base_and_scripts
  have hfh : (mapStage (rewriteElemService b (schemeOf b)) (removeStage d)).headElems.filter
      isBaseTag = (d.headElems.filter isBaseTag).map (rewriteElemService b (schemeOf b)) := by
    show ((remove_blocking_headers d.headElems).map
      (rewriteElemService b (schemeOf b))).filter isBaseTag = _
    rw [bases_map_rewrite, bases_remove_blocking_headers]
  have hfb : (mapStage (rewriteElemService b (schemeOf b)) (removeStage d)).bodyElems.filter
      isBaseTag = [] := by
    show ((remove_blocking_headers d.bodyElems).map
      (rewriteElemService b (schemeOf b))).filter isBaseTag = []
    rw [bases_map_rewrite, bases_remove_blocking_headers, hb2]
    rfl
  rcases hf : d.headElems.filter isBaseTag with _ | ⟨b0, _ | ⟨b1, t⟩⟩
  · -- no pre-existing base: one is inserted at the head front
    have hfh0 : (mapStage (rewriteElemService b (schemeOf b)) (removeStage d)).headElems.filter
        isBaseTag = [] := by rw [hfh, hf]; rfl
    have hany : (allElems (mapStage (rewriteElemService b (schemeOf b))
        (removeStage d))).any isBaseTag = false := by
      unfold allElems
      rw [List.any_append, any_eq_false_of_filter_nil _ _ hfh0,
        any_eq_false_of_filter_nil _ _ hfb]
      rfl
    unfold ensureBase
    rw [hany]
    simp only [Bool.not_false, if_true]
    have hhd : (mapStage (rewriteElemService b (schemeOf b)) (removeStage d)).hasHead
        = true := hh
    rw [hhd]
    simp only [if_true]
    unfold injectHeadService
    simp only [hhd, if_true]
    refine ⟨?_, hfb⟩
    rw [List.filter_cons, List.filter_cons, List.filter_cons]
    rw [show isBaseTag scriptElemService = false from rfl,
      show isBaseTag cspMetaElem = false from rfl,
      show isBaseTag (Elem.mk (bytes "base") [(bytes "href", pRelayMark ++ b)] none)
        = true from rfl]
    simp only [Bool.false_eq_true, if_false, if_true]
    rw [hfh0]
    simp [getAttr]
  · -- exactly one pre-existing base: it is updated in place
    have hfh1 : (mapStage (rewriteElemService b (schemeOf b)) (removeStage d)).headElems.filter
        isBaseTag = [rewriteElemService b (schemeOf b) b0] := by rw [hfh, hf]; rfl
    have hanyH : (mapStage (rewriteElemService b (schemeOf b))
        (removeStage d)).headElems.any isBaseTag = true := by
      have hmem : rewriteElemService b (schemeOf b) b0 ∈
          (mapStage (rewriteElemService b (schemeOf b)) (removeStage d)).headElems.filter
            isBaseTag := by
        rw [hfh1]
        exact List.mem_singleton_self _
      obtain ⟨hmem2, hp⟩ := List.mem_filter.mp hmem
      exact List.any_eq_true.mpr ⟨_, hmem2, hp⟩
    have hany : (allElems (mapStage (rewriteElemService b (schemeOf b))
        (removeStage d))).any isBaseTag = true := by
      unfold allElems
      rw [List.any_append, hanyH]
      rfl
    unfold ensureBase
    rw [hany]
    simp only [Bool.not_true, Bool.false_eq_true, if_false]
    rw [hanyH]
    simp only [if_true]
    unfold injectHeadService
    have hhd : (mapStage (rewriteElemService b (schemeOf b)) (removeStage d)).hasHead
        = true := hh
    simp only [hhd, if_true]
    refine ⟨?_, hfb⟩
    rw [List.filter_cons, List.filter_cons]
    rw [show isBaseTag scriptElemService = false from rfl,
      show isBaseTag cspMetaElem = false from rfl]
    simp only [Bool.false_eq_true, if_false]
    rw [updateFirstBase_of_single (pRelayMark ++ b) _ _ hfh1]
    simp [getAttr_setAttr_eq]
  · -- impossible: the head held at most one base
    rw [hf] at hb1
    simp only [List.length_cons] at hb1
    omega

/-- Witness for the amended C7: a document whose head holds one base tag
(and a stylesheet link). -/
theorem c7_exactly_one_proxied_base_witness :
    ((⟨true,
        [⟨bytes "base", [(bytes "href", bytes "https://old.example/")], none⟩,
         ⟨bytes "link", [(bytes "rel", bytes "stylesheet"),
                         (bytes "href", bytes "/style.css")], none⟩],
        []⟩ : Doc).hasHead = true)
    ∧ (((⟨true,
        [⟨bytes "base", [(bytes "href", bytes "https://old.example/")], none⟩,
         ⟨bytes "link", [(bytes "rel", bytes "stylesheet"),
                         (bytes "href", bytes "/style.css")], none⟩],
        []⟩ : Doc).headElems.filter isBaseTag).length ≤ 1)
    ∧ ((process_html_service
          ⟨true,
           [⟨bytes "base", [(bytes "href", bytes "https://old.example/")], none⟩,
            ⟨bytes "link", [(bytes "rel", bytes "stylesheet"),
                            (bytes "href", bytes "/style.css")], none⟩],
           []⟩
          (bytes "https://example.com/dir/page")).headElems.filter isBaseTag).map
        (getAttr (bytes "href"))
      = [some (pRelayMark ++ bytes "https://example.com/dir/page")]
    ∧ (process_html_service
          ⟨true,
           [⟨bytes "base", [(bytes "href", bytes "https://old.example/")], none⟩,
            ⟨bytes "link", [(bytes "rel", bytes "stylesheet"),
                            (bytes "href", bytes "/style.css")], none⟩],
           []⟩
          (bytes "https://example.com/dir/page")).bodyElems.filter isBaseTag = [] :=
  ⟨rfl, by decide,
    c7_exactly_one_proxied_base
      ⟨true,
       [⟨bytes "base", [(bytes "href", bytes "https://old.example/")], none⟩,
        ⟨bytes "link", [(bytes "rel", bytes "stylesheet"),
                        (bytes "href", bytes "/style.css")], none⟩],
       []⟩
      (bytes "https://example.com/dir/page") rfl (by decide) rfl⟩

/-! ### Claim C8: srcset candidates. -/

/-- A srcset candidate: a url and an optional descriptor. -/
def candStr (c : Bytes × Option Bytes) : Bytes :=
  c.1 ++ (match c.2 with | some d => [32] ++ d | none => [])

/-- Rendering of a well-formed srcset attribute from its candidates. -/
def renderSrcset (cs : List (Bytes × Option Bytes)) : Bytes :=
  joinSep (bytes ", ") (cs.map candStr)

/-- Tokens of a well-formed candidate carry no whitespace and no comma. -/
def saneToken (u : Bytes) : Bool :=
  !u.isEmpty && u.all (fun b => !isWs b && !(b == 44))

def saneCand (c : Bytes × Option Bytes) : Bool :=
  saneToken c.1 && (match c.2 with | some d => saneToken d | none => true)

theorem dropWhile_all_false {α : Type} (p : α → Bool) :
    ∀ l : List α, (∀ x ∈ l, p x = false) → l.dropWhile p = l := by
  intro l
  cases l with
  | nil => intro _; rfl
  | cons a t =>
    intro h
    rw [List.dropWhile_cons, h a (by simp)]
    simp

theorem pyStrip_all_nonws {s : Bytes} (h : ∀ x ∈ s, isWs x = false) :
    pyStrip s = s := by
  unfold pyStrip
  rw [dropWhile_all_false _ _ h,
    dropWhile_all_false _ _ (fun x hx => h x (List.mem_reverse.mp hx)),
    List.reverse_reverse]

theorem pyStrip_cons_ws (s : Bytes) : pyStrip (32 :: s) = pyStrip s := by
  unfold pyStrip
  rw [List.dropWhile_cons]
  simp [isWs]

theorem dropWhile_cons_false {α : Type} (p : α → Bool) (x : α) (l : List α)
    (h : p x = false) : (x :: l).dropWhile p = x :: l := by
  rw [List.dropWhile_cons, h]
  simp

/-- Stripping a string whose first and last characters exist and are
non-whitespace changes nothing. -/
theorem pyStrip_sandwich (x : Nat) (mid : Bytes) (y : Nat)
    (hx : isWs x = false) (hy : isWs y = false) :
    pyStrip (x :: mid ++ [y]) = x :: mid ++ [y] := by
  unfold pyStrip
  rw [show (x :: mid ++ [y]) = x :: (mid ++ [y]) from rfl]
  rw [dropWhile_cons_false _ _ _ hx]
  rw [show (x :: (mid ++ [y])).reverse = y :: (mid.reverse ++ [x]) by simp]
  rw [dropWhile_cons_false _ _ _ hy]
  simp

theorem pySplit_ne_nil (sep : Nat) : ∀ s : Bytes, pySplit sep s ≠ [] := by
  intro s
  induction s with
  | nil => simp [pySplit]
  | cons b t ih =>
    show (match pySplit sep t with
      | cur :: rest => if b = sep then [] :: cur :: rest else (b :: cur) :: rest
      | [] => [[b]]) ≠ []
    rcases h : pySplit sep t with _ | ⟨cur, rest⟩
    · exact absurd h ih
    · by_cases hb : b = sep <;> simp [hb]

theorem pySplit_cons_eq (sep b : Nat) (t : Bytes) :
    pySplit sep (b :: t) =
      match pySplit sep t with
      | cur :: rest => if b = sep then [] :: cur :: rest else (b :: cur) :: rest
      | [] => [[b]] := rfl

theorem pySplit_sep_free (sep : Nat) : ∀ s : Bytes, (∀ x ∈ s, ¬x = sep) →
    pySplit sep s = [s] := by
  intro s
  induction s with
  | nil => intro _; rfl
  | cons b t ih =>
    intro h
    rw [pySplit_cons_eq, ih (fun x hx => h x (by simp [hx]))]
    dsimp only
    rw [if_neg (h b (by simp))]

theorem pySplit_append_sep (sep : Nat) : ∀ (a b' : Bytes), (∀ x ∈ a, ¬x = sep) →
    pySplit sep (a ++ sep :: b') = a :: pySplit sep b' := by
  intro a
  induction a with
  | nil =>
    intro b' _
    show pySplit sep (sep :: b') = [] :: pySplit sep b'
    rw [pySplit_cons_eq]
    rcases h : pySplit sep b' with _ | ⟨cur, rest⟩
    · exact absurd h (pySplit_ne_nil sep b')
    · dsimp only
      rw [if_pos rfl]
  | cons x a' ih =>
    intro b' h
    show pySplit sep (x :: (a' ++ sep :: b')) = (x :: a') :: pySplit sep b'
    rw [pySplit_cons_eq, ih b' (fun y hy => h y (by simp [hy]))]
    dsimp only
    rw [if_neg (h x (by simp))]

theorem takeWhile_append_all {α : Type} (p : α → Bool) :
    ∀ (l1 l2 : List α), (∀ x ∈ l1, p x = true) →
      (l1 ++ l2).takeWhile p = l1 ++ l2.takeWhile p := by
  intro l1
  induction l1 with
  | nil => intro l2 _; rfl
  | cons a t ih =>
    intro l2 h
    rw [List.cons_append, List.takeWhile_cons, h a (by simp), ih l2 (fun x hx => h x (by simp [hx]))]
    rfl

theorem rsplitOnce_last_sep (u d : Bytes) (hd : ∀ x ∈ d, ¬x = 32) :
    rsplitOnce 32 (u ++ 32 :: d) = some (u, d) := by
  unfold rsplitOnce
  have hrev : (u ++ 32 :: d).reverse = d.reverse ++ 32 :: u.reverse := by
    simp
  rw [hrev]
  have htake : (d.reverse ++ 32 :: u.reverse).takeWhile (fun b => b ≠ 32)
      = d.reverse := by
    rw [takeWhile_append_all _ _ _ (fun x hx => by
      simpa using hd x (List.mem_reverse.mp hx))]
    rw [List.takeWhile_cons]
    simp
  rw [htake]
  have hlen : ¬(d.reverse.length = (d.reverse ++ 32 :: u.reverse).length) := by
    simp
  rw [if_neg hlen]
  have hdrop : (d.reverse ++ 32 :: u.reverse).drop (d.reverse.length + 1)
      = u.reverse := by
    rw [show d.reverse ++ 32 :: u.reverse = (d.reverse ++ [32]) ++ u.reverse by simp,
      show d.reverse.length + 1 = (d.reverse ++ [32]).length by simp]
    exact List.drop_left _ _
  rw [hdrop]
  simp

theorem saneToken_props {u : Bytes} (h : saneToken u = true) :
    u ≠ [] ∧ (∀ b ∈ u, isWs b = false) ∧ (∀ b ∈ u, ¬b = 44) ∧ (∀ b ∈ u, ¬b = 32) := by
  unfold saneToken at h
  obtain ⟨h1, h2⟩ := Bool.and_eq_true _ _ |>.mp h
  have hall := List.all_eq_true.mp h2
  refine ⟨by simpa using h1, ?_, ?_, ?_⟩
  · intro b hb
    obtain ⟨hw, _⟩ := Bool.and_eq_true _ _ |>.mp (hall b hb)
    simpa using hw
  · intro b hb
    obtain ⟨_, hc⟩ := Bool.and_eq_true _ _ |>.mp (hall b hb)
    simpa using hc
  · intro b hb heq
    obtain ⟨hw, _⟩ := Bool.and_eq_true _ _ |>.mp (hall b hb)
    subst heq
    simp [isWs] at hw

theorem srcsetPart_ws (pf : Bytes → Bytes) (c : Bytes) :
    srcsetPart pf (32 :: c) = srcsetPart pf c := by
  unfold srcsetPart
  rw [pyStrip_cons_ws]

theorem contains_of_mem {s : Bytes} {a : Nat} (h : a ∈ s) : s.contains a = true := by
  exact List.elem_eq_true_of_mem h

theorem contains_eq_false_of_forall {s : Bytes} {a : Nat} (h : ∀ x ∈ s, ¬x = a) :
    s.contains a = false := by
  by_contra hc
  have := List.mem_of_elem_eq_true (eq_true_of_ne_false hc)
  exact h a this rfl

/-- Splitting a sane candidate in url-plus-descriptor form. -/
theorem srcsetPartStripped_desc (pf : Bytes → Bytes) {u d : Bytes}
    (hu : saneToken u = true) (hd : saneToken d = true) :
    srcsetPartStripped pf (u ++ 32 :: d) = pf u ++ [32] ++ d := by
  obtain ⟨_, huw, _, hu32⟩ := saneToken_props hu
  obtain ⟨_, hdw, _, hd32⟩ := saneToken_props hd
  unfold srcsetPartStripped
  rw [contains_of_mem (by simp : (32 : Nat) ∈ u ++ 32 :: d)]
  simp only [if_true]
  rw [rsplitOnce_last_sep u d hd32]
  dsimp only
  rw [pyStrip_all_nonws huw, pyStrip_all_nonws hdw]

theorem srcsetPart_desc (pf : Bytes → Bytes) {u d : Bytes}
    (hu : saneToken u = true) (hd : saneToken d = true) :
    srcsetPart pf (candStr (u, some d)) = pf u ++ [32] ++ d := by
  obtain ⟨hune, huw, _, _⟩ := saneToken_props hu
  obtain ⟨hdne, hdw, _, _⟩ := saneToken_props hd
  obtain ⟨x, u', rfl⟩ := List.exists_cons_of_ne_nil hune
  obtain ⟨y, t, hbr⟩ := List.exists_cons_of_ne_nil
    (show d.reverse ≠ [] by simpa using hdne)
  have hd' : d = t.reverse ++ [y] := by
    rw [← List.reverse_reverse d, hbr]
    simp
  have hshape : candStr (x :: u', some d) = x :: (u' ++ 32 :: t.reverse) ++ [y] := by
    unfold candStr
    rw [hd']
    simp
  rw [hshape]
  unfold srcsetPart
  rw [pyStrip_sandwich x (u' ++ 32 :: t.reverse) y (huw x (by simp))
    (hdw y (by rw [hd']; simp))]
  have hback : (x :: (u' ++ 32 :: t.reverse) ++ [y] : Bytes) = (x :: u') ++ 32 :: d := by
    rw [hd']
    simp
  rw [hback]
  exact srcsetPartStripped_desc pf hu hd

theorem srcsetPart_nodesc (pf : Bytes → Bytes) {u : Bytes}
    (hu : saneToken u = true) :
    srcsetPart pf (candStr (u, none)) = pf u := by
  obtain ⟨_, huw, _, hu32⟩ := saneToken_props hu
  have hcand : candStr (u, none) = u := by
    unfold candStr
    simp
  rw [hcand]
  unfold srcsetPart
  rw [pyStrip_all_nonws huw]
  unfold srcsetPartStripped
  rw [contains_eq_false_of_forall hu32]
  simp

theorem candStr_no_comma {c : Bytes × Option Bytes} (h : saneCand c = true) :
    ∀ x ∈ candStr c, ¬x = 44 := by
  obtain ⟨u, d⟩ := c
  obtain ⟨hu, hd⟩ := Bool.and_eq_true _ _ |>.mp h
  obtain ⟨_, _, hu44, _⟩ := saneToken_props hu
  intro x hx
  cases d with
  | none =>
    unfold candStr at hx
    simp only [List.append_nil] at hx
    exact hu44 x hx
  | some dv =>
    obtain ⟨_, _, hd44, _⟩ := saneToken_props hd
    unfold candStr at hx
    rw [List.mem_append] at hx
    rcases hx with hx | hx
    · exact hu44 x hx
    · rw [List.mem_append] at hx
      rcases hx with hx | hx
      · rw [List.mem_singleton] at hx
        subst hx
        decide
      · exact hd44 x hx

/-- Core of C8: splitting the rendered attribute on commas and mapping the
candidate rewriter equals rewriting each candidate's url and keeping its
descriptor. -/
theorem srcset_core (pf : Bytes → Bytes) :
    ∀ cs : List (Bytes × Option Bytes), cs ≠ [] → cs.all saneCand = true →
      (pySplit 44 (renderSrcset cs)).map (srcsetPart pf)
        = cs.map (fun c => candStr (pf c.1, c.2)) := by
  intro cs
  induction cs with
  | nil => intro h _; exact absurd rfl h
  | cons c cs' ih =>
    intro _ hsane
    have hc : saneCand c = true := by
      simp only [List.all_cons, Bool.and_eq_true] at hsane
      exact hsane.1
    have hcs' : cs'.all saneCand = true := by
      simp only [List.all_cons, Bool.and_eq_true] at hsane
      exact hsane.2
    obtain ⟨u, d⟩ := c
    obtain ⟨hu, hd⟩ := Bool.and_eq_true _ _ |>.mp hc
    have hpart : srcsetPart pf (candStr (u, d)) = candStr (pf u, d) := by
      cases d with
      | none =>
        rw [srcsetPart_nodesc pf hu]
        simp [candStr]
      | some dv =>
        rw [srcsetPart_desc pf hu hd]
        unfold candStr
        simp
    cases cs' with
    | nil =>
      have : renderSrcset [(u, d)] = candStr (u, d) := rfl
      rw [this, pySplit_sep_free 44 _ (candStr_no_comma hc), List.map_cons]
      rw [hpart]
      rfl
    | cons c2 rest2 =>
      have hrender : renderSrcset ((u, d) :: c2 :: rest2)
          = candStr (u, d) ++ 44 :: (32 :: renderSrcset (c2 :: rest2)) := by
        rw [show renderSrcset ((u, d) :: c2 :: rest2)
            = candStr (u, d) ++ bytes ", " ++ renderSrcset (c2 :: rest2) from rfl]
        rw [show (bytes ", ") = (44 :: 32 :: [] : Bytes) by decide]
        rw [List.append_assoc]
        rfl
      rw [hrender, pySplit_append_sep 44 _ _ (candStr_no_comma hc)]
      obtain ⟨h0, t0, hsp⟩ := List.exists_cons_of_ne_nil
        (pySplit_ne_nil 44 (renderSrcset (c2 :: rest2)))
      have hsp32 : pySplit 44 (32 :: renderSrcset (c2 :: rest2)) = (32 :: h0) :: t0 := by
        rw [pySplit_cons_eq, hsp]
        dsimp only
        rw [if_neg (by decide)]
      rw [hsp32]
      simp only [List.map_cons]
      rw [hpart, srcsetPart_ws]
      have hih := ih (by simp) hcs'
      rw [hsp] at hih
      simp only [List.map_cons] at hih
      obtain ⟨ha, hb⟩ := List.cons_eq_cons.mp hih
      rw [ha, hb]

/-- C8. For a well-formed srcset attribute, each comma-separated candidate
is parsed as a url with an optional descriptor, each url is independently
resolved against the base and proxy-encoded, and each descriptor survives
unchanged in the rewritten attribute. -/
theorem c8_srcset_candidates (base scheme : Bytes) (cs : List (Bytes × Option Bytes))
    (hne : cs ≠ []) (hsane : cs.all saneCand = true) :
    srcsetRewrite (pfService base scheme) (renderSrcset cs)
      = renderSrcset (cs.map (fun c => (pfService base scheme c.1, c.2))) := by
  unfold srcsetRewrite
  rw [srcset_core (pfService base scheme) cs hne hsane]
  unfold renderSrcset
  rw [List.map_map]
  rfl

/-- Witness for C8 at `srcset="a.png 1x, b.png 2x"` against
`https://example.com/`. -/
theorem c8_srcset_candidates_witness :
    ((([(bytes "a.png", some (bytes "1x")), (bytes "b.png", some (bytes "2x"))] :
        List (Bytes × Option Bytes)).all saneCand) = true)
    ∧ srcsetRewrite (pfService (bytes "https://example.com/") (bytes "https"))
        (renderSrcset [(bytes "a.png", some (bytes "1x")), (bytes "b.png", some (bytes "2x"))])
      = renderSrcset
          (([(bytes "a.png", some (bytes "1x")), (bytes "b.png", some (bytes "2x"))] :
            List (Bytes × Option Bytes)).map
            (fun c => (pfService (bytes "https://example.com/") (bytes "https") c.1, c.2))) :=
  ⟨by decide,
    c8_srcset_candidates (bytes "https://example.com/") (bytes "https")
      [(bytes "a.png", some (bytes "1x")), (bytes "b.png", some (bytes "2x"))]
      (by simp) (by decide)⟩

/-! ### Claim C10: comparing the two rewrite pipelines. -/

/-- Decoding of a rewritten attribute value back to its original URL:
query-encoded values are percent-decoded, path-encoded values are taken
verbatim after the relay path (with collapsed-scheme restoration),
anything else is left as is. -/
def decodeAnyProxy (v : Bytes) : Bytes :=
  if startsWith qRelayMark v then unquotePlus (v.drop qRelayMark.length)
  else if startsWith pRelayMark v then fixCollapsedScheme (v.drop pRelayMark.length)
  else v

/-- An element up to proxy encoding: its tag and its attributes with every
value decoded back to the original URL. -/
def elemSig (e : Elem) : Bytes × List (Bytes × Bytes) :=
  (e.tag, e.attrs.map (fun p => (p.1, decodeAnyProxy p.2)))

/-- A document up to proxy encoding, the claim's notion of "equivalent
rewritten documents": same elements rewritten, corresponding rewritten
URLs decoding to the same original. -/
def docSig (d : Doc) : List (Bytes × List (Bytes × Bytes)) := (allElems d).map elemSig

/-- C10 counterexample: on `<img src="a.png">` rendered from
`https://example.com/dir/page`, the routed view resolves against the
origin (`https://example.com/a.png`) while `_process_html` resolves
against the full final URL (`https://example.com/dir/a.png`), and the two
base hrefs decode differently as well — the pipelines do not produce
equivalent documents. -/
theorem c10_pipelines_not_equivalent :
    docSig (process_html_views
        (Doc.mk true [] [⟨bytes "img", [(bytes "src", bytes "a.png")], none⟩])
        (bytes "https://example.com/dir/page"))
      ≠ docSig (process_html_service
        (Doc.mk true [] [⟨bytes "img", [(bytes "src", bytes "a.png")], none⟩])
        (bytes "https://example.com/dir/page")) := by decide

theorem fixCollapsedScheme_abs {u : Bytes} (habs : isHttpAbs u = true) :
    fixCollapsedScheme u = u := by
  rcases Bool.or_eq_true _ _ |>.mp habs with h | h <;>
    obtain ⟨t, rfl⟩ := startsWith_iff.mp h
  · unfold fixCollapsedScheme
    have h2 : startsWith (bytes "http://") (bytes "http://" ++ t) = true :=
      startsWith_append_self _ _
    rw [h2]
    have h3 : startsWith (bytes "https:/") (bytes "http://" ++ t) = false := by
      simp [startsWith, bytes, List.isPrefixOf]
    rw [h3]
    simp
  · unfold fixCollapsedScheme
    have h1 : startsWith (bytes "http:/") (bytes "https://" ++ t) = false := by
      simp [startsWith, bytes, List.isPrefixOf]
    have h2 : startsWith (bytes "https://") (bytes "https://" ++ t) = true :=
      startsWith_append_self _ _
    rw [h1, h2]
    simp

/-- C10 as amended: for an already-absolute http(s) resource URL, the two
encoders' outputs decode to the same original URL (both to `u` itself);
the pipelines only diverge on path-relative references (origin base vs
full final URL), on the base href, and on the element kinds handled by a
single pipeline (e.g. iframes). -/
theorem c10_encoders_decode_to_same_original (scheme u : Bytes)
    (habs : isHttpAbs u = true) (hbytes : u.all (fun b => decide (b < 256)) = true) :
    decodeAnyProxy (proxy_url_query scheme u) = u
    ∧ decodeAnyProxy (proxy_url_path scheme u) = u := by
  constructor
  · unfold proxy_url_query
    rw [proxyPassQuery_of_httpAbs habs]
    simp only [Bool.false_eq_true, if_false]
    rw [notProtoRel_of_httpAbs habs]
    simp only [Bool.false_eq_true, if_false, ite_false]
    unfold decodeAnyProxy
    rw [if_pos (startsWith_append_self _ _), List.drop_left]
    exact unquotePlus_quoteBytes u (by simpa using hbytes)
  · unfold proxy_url_path
    rw [proxyPassPath_of_httpAbs habs]
    simp only [Bool.false_eq_true, if_false]
    rw [notProtoRel_of_httpAbs habs]
    simp only [Bool.false_eq_true, if_false, ite_false]
    unfold decodeAnyProxy
    have hq : startsWith qRelayMark (pRelayMark ++ u) = false := by
      rw [show qRelayMark
          = bytes "\x7b\x7bPROXY_BASE\x7d\x7d/api/proxy-" ++ bytes "resource/?url=" by decide,
        show pRelayMark
          = bytes "\x7b\x7bPROXY_BASE\x7d\x7d/api/proxy-" ++ bytes "path/" by decide,
        List.append_assoc, startsWith_append_cancel]
      simp [startsWith, bytes, List.isPrefixOf]
    rw [hq]
    simp only [Bool.false_eq_true, if_false]
    rw [if_pos (startsWith_append_self _ _), List.drop_left]
    exact fixCollapsedScheme_abs habs

/-- Witness for the amended C10 at `https://example.com/static/app.js`. -/
theorem c10_encoders_decode_to_same_original_witness :
    isHttpAbs (bytes "https://example.com/static/app.js") = true ∧
    ((bytes "https://example.com/static/app.js").all (fun b => decide (b < 256)) = true) ∧
    (decodeAnyProxy (proxy_url_query (bytes "https") (bytes "https://example.com/static/app.js"))
        = bytes "https://example.com/static/app.js"
    ∧ decodeAnyProxy (proxy_url_path (bytes "https") (bytes "https://example.com/static/app.js"))
        = bytes "https://example.com/static/app.js") :=
  ⟨by decide, by decide,
    c10_encoders_decode_to_same_original (bytes "https")
      (bytes "https://example.com/static/app.js") (by decide) (by decide)⟩

end ModifyStyle
